import Mathlib

/-!
Verification of the interval core of the PST-IST-EC-Panchangam viewer.

The development shallowly embeds the JavaScript sources:

* `src/script.js` (first variant): `pad2`, `cityLocalToUtcMs`,
  `formatCityDateTime`, `getCityTodayString`, `formatRemaining`,
  `extractSection`, `parseIntervals`, `findCurrentAndNext`,
  `parseKalasForToday`;
* `src/script.js` (second variant, after the separator): `parsePanchangam`;
* `src/unnamed/part_001`: `findCurrentAndNext` (triple-returning) and
  `formatRemaining`;
* `src/unnamed/part_000` (third variant, lines 444-464): the
  `findCurrentAndNext` with the first/last fallback.

JavaScript numbers are modelled as `Int` (every quantity in play is an
integer number of milliseconds/minutes and stays far below 2^53, where JS
arithmetic on integers is exact).  `Date.UTC` and the `getUTC*` accessors
are embedded through the standard civil-calendar algorithms
(`daysFromCivil` / `civilFromDays`), which agree extensionally with
ECMAScript `MakeDay`/`YearFromTime`/`MonthFromTime`/`DateFromTime`;
Lean's `Int` division by a positive constant is floor division, exactly
ECMAScript's `floor`.  Regexes are embedded as the deterministic character
scanners they denote (each quantifier in the source patterns is followed
by a disjoint character class, so the backtracking search is
deterministic).
-/

/-! ## JavaScript character classes and string primitives -/

/-- JS `\s` for the characters that can occur in this data (ASCII whitespace). -/
def isSpaceJS (c : Char) : Bool :=
  c = ' ' || c = '\t' || c = '\n' || c = '\r' || c = '\x0b' || c = '\x0c'

/-- JS `\d`. -/
def isDigitJS (c : Char) : Bool :=
  decide ('0' ≤ c) && decide (c ≤ '9')

/-- JS `\w`. -/
def isWordJS (c : Char) : Bool :=
  (decide ('a' ≤ c) && decide (c ≤ 'z')) || (decide ('A' ≤ c) && decide (c ≤ 'Z'))
    || (decide ('0' ≤ c) && decide (c ≤ '9')) || c = '_'

/-- ASCII lower-casing, the relevant fragment of JS `toLowerCase` /
the `i` regex flag. -/
def toLowerJS (c : Char) : Char :=
  if decide ('A' ≤ c) && decide (c ≤ 'Z') then Char.ofNat (c.toNat + 32) else c

def lowerStr (l : List Char) : List Char := l.map toLowerJS

/-- Numeric value of a digit character. -/
def digitVal (c : Char) : Nat := c.toNat - 48

/-- The digit character of a value below 10. -/
def digitChar (n : Nat) : Char := Char.ofNat (48 + n)

/-- Decimal digits of a natural number, with enough fuel (a value always
has at most as many digits as its own magnitude, so `fuel = n` suffices;
the fuel-exhausted fallback is never reached then). -/
def natDigitsCore : Nat → Nat → List Char → List Char
  | 0, n, acc => digitChar (n % 10) :: acc
  | fuel + 1, n, acc =>
    if n < 10 then digitChar n :: acc
    else natDigitsCore fuel (n / 10) (digitChar (n % 10) :: acc)

/-- JS `Number.prototype.toString` for a natural number. -/
def jsNatToString (n : Nat) : String := String.mk (natDigitsCore n n [])

/-- JS `String(n)` for an integer value. -/
def jsIntToString (i : Int) : String :=
  if i < 0 then "-" ++ jsNatToString i.natAbs else jsNatToString i.natAbs

/-- `pad2` from `src/script.js`: `n.toString().padStart(2, "0")`. -/
def pad2 (i : Int) : String :=
  let s := jsIntToString i
  String.mk (List.replicate (2 - s.length) '0' ++ s.data)

/-- JS `String.prototype.trim` on a character list. -/
def trimJS (l : List Char) : List Char :=
  ((l.dropWhile isSpaceJS).reverse.dropWhile isSpaceJS).reverse

def jsTrim (s : String) : String := String.mk (trimJS s.data)

/-- JS `String.prototype.startsWith`. -/
def jsStartsWith (s pre : String) : Bool := pre.data.isPrefixOf s.data

/-- JS `split("\n")` (keeps empty pieces). -/
def splitLinesCh (l : List Char) : List (List Char) :=
  l.foldr
    (fun c acc =>
      match acc with
      | [] => [[c]]
      | a :: rest => if c = '\n' then [] :: a :: rest else (c :: a) :: rest)
    [[]]

def jsSplitNl (s : String) : List String := (splitLinesCh s.data).map String.mk

/-- One line of JS `split(/\r?\n/)`: the `\n` separator eats one preceding `\r`. -/
def dropCR (l : List Char) : List Char :=
  match l.reverse with
  | '\r' :: rest => rest.reverse
  | _ => l

/-- JS `split(/\r?\n/)`. -/
def jsSplitCRLF (s : String) : List String :=
  ((splitLinesCh s.data).map dropCR).map String.mk

/-! ## Calendar arithmetic: the embedding of `Date.UTC` and `getUTC*`

`daysFromCivil`/`civilFromDays` are the standard era-based civil calendar
conversions (Howard Hinnant's algorithms), extensionally equal to the
ECMAScript `MakeDay` and `YearFromTime`/`MonthFromTime`/`DateFromTime`
operations on every argument produced in this development.  All divisions
are by positive constants, where Lean's `Int` division is floor division,
as required by ECMAScript. -/

/-- Proleptic Gregorian leap-year test (ECMAScript `DaysInYear`). -/
def isLeap (y : Int) : Bool :=
  decide ((y % 4 = 0 ∧ y % 100 ≠ 0) ∨ y % 400 = 0)

/-- Length of month `m` (1-based) of year `y`. -/
def daysInMonth (y m : Int) : Int :=
  if m = 2 then (if isLeap y then 29 else 28)
  else if m = 4 ∨ m = 6 ∨ m = 9 ∨ m = 11 then 30 else 31

/-- Day number (from March) of the first day of shifted month `mp`
(`mp = 0` is March, …, `mp = 11` is February). -/
def monthDayStart (mp : Int) : Int := (153 * mp + 2) / 5

/-- First day-of-era of civil year-of-era `yoe` (years counted from March). -/
def civilYearStart (yoe : Int) : Int := 365 * yoe + yoe / 4 - yoe / 100

/-- The day-of-era correction used when inverting `civilYearStart`. -/
def hAdj (x : Int) : Int := x - x / 1460 + x / 36524 - x / 146096

/-- Year shifted so that the civil year starts in March. -/
def dfcYAdj (y m : Int) : Int := if m ≤ 2 then y - 1 else y

/-- 400-year era of the (shifted) year. -/
def dfcEra (y m : Int) : Int := dfcYAdj y m / 400

/-- Year of era of the (shifted) year. -/
def dfcYoe (y m : Int) : Int := dfcYAdj y m - dfcEra y m * 400

/-- Day of the (March-based) civil year. -/
def dfcDoy (m d : Int) : Int := monthDayStart ((m + 9) % 12) + d - 1

/-- Day of the era. -/
def dfcDoe (y m d : Int) : Int := civilYearStart (dfcYoe y m) + dfcDoy m d

/-- Days since 1970-01-01 of the civil date `y-m-d` (`m` in 1..12, `d`
arbitrary: out-of-range days shift the date, exactly as in ECMAScript
`MakeDay`). -/
def daysFromCivil (y m d : Int) : Int :=
  dfcEra y m * 146097 + dfcDoe y m d - 719468

/-- Era of a day count. -/
def cfdEra (z : Int) : Int := (z + 719468) / 146097

/-- Day of era of a day count. -/
def cfdDoe (z : Int) : Int := z + 719468 - cfdEra z * 146097

/-- Year of era of a day count. -/
def cfdYoe (z : Int) : Int := hAdj (cfdDoe z) / 365

/-- Day of civil year of a day count. -/
def cfdDoy (z : Int) : Int := cfdDoe z - civilYearStart (cfdYoe z)

/-- Shifted month of a day count. -/
def cfdMp (z : Int) : Int := (5 * cfdDoy z + 2) / 153

/-- Calendar month of a day count. -/
def cfdM (z : Int) : Int := if cfdMp z < 10 then cfdMp z + 3 else cfdMp z - 9

/-- Day of month of a day count. -/
def cfdD (z : Int) : Int := cfdDoy z - monthDayStart (cfdMp z) + 1

/-- Calendar year of a day count. -/
def cfdY (z : Int) : Int :=
  if cfdM z ≤ 2 then cfdYoe z + cfdEra z * 400 + 1 else cfdYoe z + cfdEra z * 400

/-- Civil date `(y, m, d)` of a day count since 1970-01-01. -/
def civilFromDays (z : Int) : Int × Int × Int := (cfdY z, cfdM z, cfdD z)

/-- ECMAScript `MakeDay y monthIndex d` (`monthIndex` 0-based, normalized
modulo 12 into the year as the spec requires). -/
def makeDay (y monthIndex d : Int) : Int :=
  daysFromCivil (y + monthIndex / 12) (monthIndex % 12 + 1) d

/-- `Date.UTC(y, monthIndex, d, h, min, 0)` in milliseconds. -/
def dateUTC (y monthIndex d h min : Int) : Int :=
  makeDay y monthIndex d * 86400000 + h * 3600000 + min * 60000

/-- `cityLocalToUtcMs` from `src/script.js`. -/
def cityLocalToUtcMs (year month day hour minute offsetMinutes : Int) : Int :=
  dateUTC year (month - 1) day hour minute - offsetMinutes * 60 * 1000

/-- ECMAScript `Day(t)`. -/
def msToDay (t : Int) : Int := t / 86400000

/-- ECMAScript `t modulo msPerDay`. -/
def msOfDay (t : Int) : Int := t % 86400000

/-- `getUTCFullYear/getUTCMonth+1/getUTCDate` of an instant. -/
def utcYMD (t : Int) : Int × Int × Int := civilFromDays (msToDay t)

/-- `getUTCHours`. -/
def utcHour (t : Int) : Int := msOfDay t / 3600000

/-- `getUTCMinutes`. -/
def utcMinute (t : Int) : Int := msOfDay t % 3600000 / 60000

/-- `formatCityDateTime` from `src/script.js`. -/
def formatCityDateTime (utcMs offsetMinutes : Int) : String :=
  let cityMs := utcMs + offsetMinutes * 60 * 1000
  let ymd := utcYMD cityMs
  jsIntToString ymd.1 ++ "/" ++ pad2 ymd.2.1 ++ "/" ++ pad2 ymd.2.2 ++ " "
    ++ pad2 (utcHour cityMs) ++ ":" ++ pad2 (utcMinute cityMs)

/-- `getCityTodayString` from `src/script.js`. -/
def getCityTodayString (nowUtcMs offsetMinutes : Int) : String :=
  let cityMs := nowUtcMs + offsetMinutes * 60 * 1000
  let ymd := utcYMD cityMs
  jsIntToString ymd.1 ++ "/" ++ pad2 ymd.2.1 ++ "/" ++ pad2 ymd.2.2

/-! ## Remaining-duration formatting -/

/-- `formatRemaining` from `src/script.js` (first variant). -/
def formatRemaining (ms : Int) : String :=
  if ms ≤ 0 then "0 minutes remaining"
  else
    let totalMinutes := ms / 60000
    let hours := totalMinutes / 60
    let minutes := totalMinutes % 60
    if 0 < hours then
      jsIntToString hours ++ " hour" ++ (if 1 < hours then "s" else "") ++ " "
        ++ jsIntToString minutes ++ " minute" ++ (if minutes ≠ 1 then "s" else "")
        ++ " remaining"
    else
      jsIntToString minutes ++ " minute" ++ (if minutes ≠ 1 then "s" else "")
        ++ " remaining"

/-- `formatRemaining` from `src/unnamed/part_001` (operates on minutes and
also accepts the `null` produced when there is no current interval). -/
def part001_formatRemaining (remainingMinutes : Option Int) : String :=
  match remainingMinutes with
  | none => "—"
  | some m =>
    if m ≤ 0 then "—"
    else jsIntToString (m / 60) ++ " hours " ++ jsIntToString (m % 60)
      ++ " minutes remaining"

/-! ## The record-line grammar

`parseIntervals` and `parseKalasForToday` both match
`/^([^:]+):\s+(\d{4}\/\d{2}\/\d{2})\s+(\d{2}):(\d{2})(?::\d{2})?\s+to\s+(\d{4}\/\d{2}\/\d{2})\s+(\d{2}):(\d{2})(?::\d{2})?/`.
The pattern is anchored at the start, has no end anchor (trailing text is
ignored), and each quantified piece is followed by a character outside its
class, so matching is deterministic. -/

structure RawRecord where
  name : String
  sy : Nat
  sm : Nat
  sd : Nat
  sh : Nat
  smin : Nat
  startDateRaw : String
  ey : Nat
  em : Nat
  ed : Nat
  eh : Nat
  emin : Nat
deriving DecidableEq

/-- The ten characters of a zero-padded `YYYY/MM/DD` date with the given
field values (`y` below 10000, `m` and `d` below 100). -/
def dateDigits (y m d : Nat) : List Char :=
  [digitChar (y / 1000), digitChar (y / 100 % 10), digitChar (y / 10 % 10),
   digitChar (y % 10), '/', digitChar (m / 10), digitChar (m % 10), '/',
   digitChar (d / 10), digitChar (d % 10)]

/-- Consume `\s+` (greedy, at least one). -/
def spaces1 : List Char → Option (List Char)
  | c :: rest => if isSpaceJS c then some (rest.dropWhile isSpaceJS) else none
  | [] => none

/-- Consume `\d{4}\/\d{2}\/\d{2}`, returning the numeric fields, the raw
ten matched characters, and the rest. -/
def parseDate (cs : List Char) : Option ((Nat × Nat × Nat) × List Char × List Char) :=
  match cs with
  | c1 :: c2 :: c3 :: c4 :: '/' :: c5 :: c6 :: '/' :: c7 :: c8 :: rest =>
    if isDigitJS c1 && isDigitJS c2 && isDigitJS c3 && isDigitJS c4 &&
        isDigitJS c5 && isDigitJS c6 && isDigitJS c7 && isDigitJS c8 then
      some ((((digitVal c1 * 10 + digitVal c2) * 10 + digitVal c3) * 10 + digitVal c4,
             digitVal c5 * 10 + digitVal c6,
             digitVal c7 * 10 + digitVal c8),
            [c1, c2, c3, c4, '/', c5, c6, '/', c7, c8], rest)
    else none
  | _ => none

/-- Consume `(\d{2}):(\d{2})`. -/
def parseTimeHM (cs : List Char) : Option ((Nat × Nat) × List Char) :=
  match cs with
  | c1 :: c2 :: ':' :: c3 :: c4 :: rest =>
    if isDigitJS c1 && isDigitJS c2 && isDigitJS c3 && isDigitJS c4 then
      some ((digitVal c1 * 10 + digitVal c2, digitVal c3 * 10 + digitVal c4), rest)
    else none
  | _ => none

/-- Consume the optional `(?::\d{2})?`. -/
def skipOptSecs (cs : List Char) : List Char :=
  match cs with
  | ':' :: c1 :: c2 :: rest => if isDigitJS c1 && isDigitJS c2 then rest else cs
  | _ => cs

/-- The tail of the record grammar after the first timestamp:
`\s+to\s+(\d{4}\/\d{2}\/\d{2})\s+(\d{2}):(\d{2})`. -/
def parseLineTail (r4 : List Char) : Option ((Nat × Nat × Nat) × List Char × (Nat × Nat)) :=
  match spaces1 r4 with
  | none => none
  | some r5 =>
    match r5 with
    | 't' :: 'o' :: r6 =>
      match spaces1 r6 with
      | none => none
      | some r7 =>
        match parseDate r7 with
        | none => none
        | some (d2, raw2, r8) =>
          match spaces1 r8 with
          | none => none
          | some r9 =>
            match parseTimeHM r9 with
            | none => none
            | some (t2, _) => some (d2, raw2, t2)
    | _ => none

/-- The front of the record grammar:
`^([^:]+):\s+(\d{4}\/\d{2}\/\d{2})\s+(\d{2}):(\d{2})`, returning the
name capture, start fields, raw start date, and the rest of the line. -/
def parseLineFront (cs : List Char) :
    Option (List Char × (Nat × Nat × Nat) × List Char × (Nat × Nat) × List Char) :=
  match cs.takeWhile (fun c => c ≠ ':') with
  | [] => none
  | name =>
    match cs.dropWhile (fun c => c ≠ ':') with
    | ':' :: r0 =>
      match spaces1 r0 with
      | none => none
      | some r1 =>
        match parseDate r1 with
        | none => none
        | some (d1, raw1, r2) =>
          match spaces1 r2 with
          | none => none
          | some r3 =>
            match parseTimeHM r3 with
            | none => none
            | some (t1, r4) => some (name, d1, raw1, t1, r4)
    | _ => none

/-- Match the record grammar of `parseIntervals` / `parseKalasForToday`
against one (already trimmed) line: the optional seconds group
`(?::\d{2})?` is consumed after the first time when present. -/
def parseLine (line : String) : Option RawRecord :=
  match parseLineFront line.data with
  | none => none
  | some (name, d1, raw1, t1, r4) =>
    match parseLineTail (skipOptSecs r4) with
    | none => none
    | some (d2, _, t2) =>
      some ⟨String.mk (trimJS name), d1.1, d1.2.1, d1.2.2, t1.1, t1.2,
            String.mk raw1, d2.1, d2.2.1, d2.2.2, t2.1, t2.2⟩

/-- The record grammar of `parsePanchangam` (second variant): identical
except that no seconds field is tolerated after the minutes. -/
def parseLine2 (line : String) : Option RawRecord :=
  match parseLineFront line.data with
  | none => none
  | some (name, d1, raw1, t1, r4) =>
    match parseLineTail r4 with
    | none => none
    | some (d2, _, t2) =>
      some ⟨String.mk (trimJS name), d1.1, d1.2.1, d1.2.2, t1.1, t1.2,
            String.mk raw1, d2.1, d2.2.1, d2.2.2, t2.1, t2.2⟩

/-! ## `parseIntervals` and the temporal resolvers -/

structure Entry where
  name : String
  startUtc : Int
  endUtc : Int
deriving DecidableEq

/-- Conversion of one matched record into an entry (`src/script.js`
`parseIntervals` body). -/
def toEntry (offsetMinutes : Int) (r : RawRecord) : Entry :=
  ⟨r.name,
   cityLocalToUtcMs r.sy r.sm r.sd r.sh r.smin offsetMinutes,
   cityLocalToUtcMs r.ey r.em r.ed r.eh r.emin offsetMinutes⟩

/-- Joining lines with a newline separator (used to state theorems about
texts assembled from given lines). -/
def joinNl : List String → String
  | [] => ""
  | [l] => l
  | l :: rest => l ++ "\n" ++ joinNl rest

/-- The matched records of a section text, in textual order
(lines split on `"\n"`, trimmed, empties dropped, non-matching dropped). -/
def sectionRecords (sectionText : String) : List RawRecord :=
  (((jsSplitNl sectionText).map jsTrim).filter (fun l => l ≠ "")).filterMap parseLine

/-- `parseIntervals` from `src/script.js`. -/
def parseIntervals (sectionText : String) (offsetMinutes : Int) : List Entry :=
  (sectionRecords sectionText).map (toEntry offsetMinutes)

/-- `findCurrentAndNext` from `src/script.js` (first variant): one scan,
breaking with the containing entry (next = following element) or at the
first entry starting after `now`. -/
def findCurrentAndNext : List Entry → Int → Option Entry × Option Entry
  | [], _ => (none, none)
  | e :: rest, now =>
    if e.startUtc ≤ now ∧ now < e.endUtc then (some e, rest.head?)
    else if now < e.startUtc then (none, some e)
    else findCurrentAndNext rest now

/-- The formatted window string pushed by `parseKalasForToday`. -/
def kalaString (r : RawRecord) : String :=
  pad2 r.sh ++ ":" ++ pad2 r.smin ++ " – " ++ pad2 r.eh ++ ":" ++ pad2 r.emin

/-- `parseKalasForToday` from `src/script.js`: keeps the windows whose raw
start-date text equals the city's current date string. -/
def parseKalasForToday (sectionText : String) (offsetMinutes nowUtcMs : Int) :
    List String :=
  let todayStr := getCityTodayString nowUtcMs offsetMinutes
  (sectionRecords sectionText).filterMap
    (fun r => if r.startDateRaw = todayStr then some (kalaString r) else none)

/-! ## The `part_001` resolver (naive minutes, returns remaining) -/

structure PEntry where
  name : String
  startMin : Int
  endMin : Int
deriving DecidableEq

/-- First loop of `findCurrentAndNext` in `src/unnamed/part_001`: find the
containing interval and its successor. -/
def part001_scanCurrent : List PEntry → Int → Option (PEntry × Option PEntry)
  | [], _ => none
  | e :: rest, now =>
    if e.startMin ≤ now ∧ now < e.endMin then some (e, rest.head?)
    else part001_scanCurrent rest now

/-- `findCurrentAndNext` from `src/unnamed/part_001`. -/
def part001_findCurrentAndNext (intervals : List PEntry) (nowMin : Int) :
    Option PEntry × Option PEntry × Option Int :=
  match part001_scanCurrent intervals nowMin with
  | some (e, nx) => (some e, nx, some (e.endMin - nowMin))
  | none => (none, intervals.find? (fun e => decide (nowMin < e.startMin)), none)

/-! ## The `part_000` (third variant, lines 444-464) resolver -/

structure Interval000 where
  label : String
  start : Int
  stop : Int
deriving DecidableEq

def part000_scanCurrent : List Interval000 → Int → Option (Interval000 × Option Interval000)
  | [], _ => none
  | e :: rest, now =>
    if e.start ≤ now ∧ now < e.stop then some (e, rest.head?)
    else part000_scanCurrent rest now

/-- `findCurrentAndNext` from `src/unnamed/part_000`, lines 444-464: when
no interval contains `now` and `now` is not before the first start, it
returns the LAST interval as current and no next. -/
def part000_findCurrentAndNext (intervals : List Interval000) (now : Int) :
    Option Interval000 × Option Interval000 :=
  match part000_scanCurrent intervals now with
  | some (e, nx) => (some e, nx)
  | none =>
    match intervals with
    | [] => (none, none)
    | first :: _ =>
      if now < first.start then (none, some first) else (intervals.getLast?, none)

/-! ## `extractSection` (the `src/script.js` regex)

`new RegExp(header + "\\s+details:\\s*=+([\\s\\S]*?)(?=\\n\\w+\\s+details:|$)", "i")`
with `String.prototype.match`: the scan finds the leftmost position where
the header part `header \s+ details: \s* =+` matches; from there the lazy
capture extends to the first position where the lookahead
`\n\w+\s+details:` matches, or to the end of the text (`$` always
succeeds there, so a match of the header part always yields a full
match).  Case-insensitive throughout. -/

/-- Case-insensitive literal match of `pat` as an initial segment,
returning the rest. -/
def matchCI : List Char → List Char → Option (List Char)
  | [], cs => some cs
  | p :: ps, c :: cs => if toLowerJS c = toLowerJS p then matchCI ps cs else none
  | _ :: _, [] => none

/-- Consume `=+` (greedy, at least one). -/
def eatEquals1 : List Char → Option (List Char)
  | '=' :: rest => some (rest.dropWhile (fun c => c = '='))
  | _ => none

/-- Match `header \s+ details: \s* =+` at this position. -/
def headerMatchAt (label : List Char) (cs : List Char) : Option (List Char) := do
  let r1 ← matchCI label cs
  let r2 ← spaces1 r1
  let r3 ← matchCI "details:".data r2
  eatEquals1 (r3.dropWhile isSpaceJS)

/-- The lookahead `\n\w+\s+details:` (case-insensitive). -/
def boundaryAt (cs : List Char) : Bool :=
  match cs with
  | '\n' :: rest =>
    match rest.takeWhile isWordJS with
    | [] => false
    | _ :: _ =>
      match rest.dropWhile isWordJS with
      | c :: r1 =>
        if isSpaceJS c then (matchCI "details:".data (r1.dropWhile isSpaceJS)).isSome
        else false
      | [] => false
  | _ => false

/-- The lazy capture: everything up to the first boundary position, or to
the end. -/
def captureUntilBoundary : List Char → List Char
  | [] => []
  | c :: rest => if boundaryAt (c :: rest) then [] else c :: captureUntilBoundary rest

/-- Leftmost-match scan of the whole pattern.  (A match starting at the
very end of the text is impossible: the pattern requires at least one
whitespace character, so the empty-suffix position is covered by `none`.) -/
def findHeaderCapture (label : List Char) : List Char → Option (List Char)
  | [] => none
  | c :: rest =>
    match headerMatchAt label (c :: rest) with
    | some after => some (captureUntilBoundary after)
    | none => findHeaderCapture label rest

/-- Case-insensitive occurrence of `pat` at some position of the text
(the label-absence condition of the extraction regex). -/
def occursCI (pat : List Char) : List Char → Bool
  | [] => (matchCI pat []).isSome
  | c :: rest => (matchCI pat (c :: rest)).isSome || occursCI pat rest

/-- `extractSection` from `src/script.js`. -/
def extractSection (text header : String) : String :=
  match findHeaderCapture header.data text.data with
  | some cap => String.mk (trimJS cap)
  | none => ""

/-! ## `parsePanchangam` (second variant in `src/script.js`) -/

structure PInterval where
  name : String
  start : Int
  stop : Int
deriving DecidableEq

structure PanchangamData where
  tithi : List PInterval
  nakshatra : List PInterval
  yogam : List PInterval
  karanam : List PInterval
deriving DecidableEq

inductive PSection
  | tithi
  | nakshatra
  | yogam
  | karanam
deriving DecidableEq

def pushSection (d : PanchangamData) (s : PSection) (iv : PInterval) : PanchangamData :=
  match s with
  | .tithi => { d with tithi := d.tithi ++ [iv] }
  | .nakshatra => { d with nakshatra := d.nakshatra ++ [iv] }
  | .yogam => { d with yogam := d.yogam ++ [iv] }
  | .karanam => { d with karanam := d.karanam ++ [iv] }

/-- `makeLocalDate(dStr, tStr)` = `new Date(Y, M-1, D, h, m)`, modelled
with a fixed browser-zone offset (the spec's fixed-offset reading of
civil time). -/
def makeLocalDate (browserOffsetMinutes y m d h min : Int) : Int :=
  dateUTC y (m - 1) d h min - browserOffsetMinutes * 60 * 1000

/-- One line step of `parsePanchangam`: headers first, then the `Next `
skip, then the no-section skip, then the record grammar. -/
def parsePanchangamStep (off : Int) (acc : PanchangamData × Option PSection)
    (raw : String) : PanchangamData × Option PSection :=
  let line := jsTrim raw
  if line = "" then acc
  else
    let lower := String.mk (lowerStr line.data)
    if jsStartsWith lower "thithi details" then (acc.1, some .tithi)
    else if jsStartsWith lower "nakshatram details" then (acc.1, some .nakshatra)
    else if jsStartsWith lower "yogam details" then (acc.1, some .yogam)
    else if jsStartsWith lower "karanam details" then (acc.1, some .karanam)
    else if jsStartsWith lower "next " then acc
    else
      match acc.2 with
      | none => acc
      | some s =>
        match parseLine2 line with
        | none => acc
        | some r =>
          (pushSection acc.1 s
            ⟨r.name, makeLocalDate off r.sy r.sm r.sd r.sh r.smin,
             makeLocalDate off r.ey r.em r.ed r.eh r.emin⟩, acc.2)

/-- `parsePanchangam` from `src/script.js` (second variant). -/
def parsePanchangam (off : Int) (text : String) : PanchangamData :=
  ((jsSplitCRLF text).foldl (parsePanchangamStep off) (⟨[], [], [], []⟩, none)).1

/-! ## Validity predicates and reading orders (used in theorem statements) -/

/-- Leap indicator of civil year-of-era `r` (the civil year starting in
March: its possible 366th day is the following February 29). -/
def hLeapB (r : Int) : Int :=
  if ((r + 1) % 4 = 0 ∧ (r + 1) % 100 ≠ 0) ∨ r = 399 then 1 else 0

/-- An in-range civil date. -/
def ValidDate (y m d : Int) : Prop :=
  1 ≤ m ∧ m ≤ 12 ∧ 1 ≤ d ∧ d ≤ daysInMonth y m

/-- An in-range civil reading `(y, m, d, h, min)`; the year range keeps
the decimal form four digits wide. -/
def ValidReading (y m d h min : Int) : Prop :=
  ValidDate y m d ∧ 1000 ≤ y ∧ y ≤ 9999 ∧ 0 ≤ h ∧ h ≤ 23 ∧ 0 ≤ min ∧ min ≤ 59

/-- Lexicographic strict order on civil readings. -/
def ReadingLT (y1 m1 d1 h1 min1 y2 m2 d2 h2 min2 : Int) : Prop :=
  y1 < y2 ∨ (y1 = y2 ∧ (m1 < m2 ∨ (m1 = m2 ∧ (d1 < d2 ∨ (d1 = d2 ∧
    (h1 < h2 ∨ (h1 = h2 ∧ min1 < min2)))))))

/-- Lexicographic order on civil readings. -/
def ReadingLE (y1 m1 d1 h1 min1 y2 m2 d2 h2 min2 : Int) : Prop :=
  ReadingLT y1 m1 d1 h1 min1 y2 m2 d2 h2 min2 ∨
    (y1 = y2 ∧ m1 = m2 ∧ d1 = d2 ∧ h1 = h2 ∧ min1 = min2)

/-- Validity of the two readings of a matched record. -/
def ValidRecord (r : RawRecord) : Prop :=
  ValidReading r.sy r.sm r.sd r.sh r.smin ∧ ValidReading r.ey r.em r.ed r.eh r.emin

/-- A record whose start reading lexicographically precedes its end reading. -/
def RecordOrdered (r : RawRecord) : Prop :=
  ReadingLT r.sy r.sm r.sd r.sh r.smin r.ey r.em r.ed r.eh r.emin

/-- Two consecutive records in chronological order: the first ends no
later than the second starts. -/
def RecordsChained (a b : RawRecord) : Prop :=
  ReadingLE a.ey a.em a.ed a.eh a.emin b.sy b.sm b.sd b.sh b.smin

instance (y m d : Int) : Decidable (ValidDate y m d) :=
  inferInstanceAs (Decidable (1 ≤ m ∧ m ≤ 12 ∧ 1 ≤ d ∧ d ≤ daysInMonth y m))

instance (y m d h min : Int) : Decidable (ValidReading y m d h min) :=
  inferInstanceAs (Decidable (ValidDate y m d ∧ 1000 ≤ y ∧ y ≤ 9999 ∧ 0 ≤ h ∧
    h ≤ 23 ∧ 0 ≤ min ∧ min ≤ 59))

instance (a b c d e f g h i j : Int) : Decidable (ReadingLT a b c d e f g h i j) :=
  inferInstanceAs (Decidable (a < f ∨ (a = f ∧ (b < g ∨ (b = g ∧ (c < h ∨ (c = h ∧
    (d < i ∨ (d = i ∧ e < j)))))))))

instance (a b c d e f g h i j : Int) : Decidable (ReadingLE a b c d e f g h i j) :=
  inferInstanceAs (Decidable (ReadingLT a b c d e f g h i j ∨
    (a = f ∧ b = g ∧ c = h ∧ d = i ∧ e = j)))

instance (r : RawRecord) : Decidable (ValidRecord r) :=
  inferInstanceAs (Decidable (ValidReading r.sy r.sm r.sd r.sh r.smin ∧
    ValidReading r.ey r.em r.ed r.eh r.emin))

instance (r : RawRecord) : Decidable (RecordOrdered r) :=
  inferInstanceAs (Decidable (ReadingLT r.sy r.sm r.sd r.sh r.smin
    r.ey r.em r.ed r.eh r.emin))

instance (a b : RawRecord) : Decidable (RecordsChained a b) :=
  inferInstanceAs (Decidable (ReadingLE a.ey a.em a.ed a.eh a.emin
    b.sy b.sm b.sd b.sh b.smin))

/-- The whole record list is chronologically chained (each record ends no
later than the next starts). -/
def ChainedRecords : List RawRecord → Prop
  | [] => True
  | [_] => True
  | a :: b :: t => RecordsChained a b ∧ ChainedRecords (b :: t)

def chainedRecordsDec : ∀ l : List RawRecord, Decidable (ChainedRecords l)
  | [] => isTrue trivial
  | [_] => isTrue trivial
  | a :: b :: t =>
    haveI := chainedRecordsDec (b :: t)
    inferInstanceAs (Decidable (RecordsChained a b ∧ ChainedRecords (b :: t)))

instance (l : List RawRecord) : Decidable (ChainedRecords l) := chainedRecordsDec l

/-- The civil date, in the zone of fixed offset `offsetMinutes`, of the
instant `utcMs` (the date triple that `getCityTodayString` formats). -/
def civilDateInZone (utcMs offsetMinutes : Int) : Int × Int × Int :=
  utcYMD (utcMs + offsetMinutes * 60 * 1000)

/-- Upper bound for the day of month of the month with shift `mp`
(used only through `d_le_dimTable`). -/
def dimTable (mp : Int) : Int :=
  if mp = 1 ∨ mp = 3 ∨ mp = 6 ∨ mp = 8 then 30 else if mp = 11 then 29 else 31


/-! ## Calendar lemmas: round trip -/

theorem hLeapB_nonneg (r : Int) : 0 ≤ hLeapB r := by
  unfold hLeapB; split <;> omega

theorem hLeapB_le_one (r : Int) : hLeapB r ≤ 1 := by
  unfold hLeapB; split <;> omega

theorem hAdj_step (a : Int) : hAdj a ≤ hAdj (a + 1) := by
  unfold hAdj; omega

theorem hAdj_mono_aux (a : Int) : ∀ n : Nat, hAdj a ≤ hAdj (a + n)
  | 0 => by simp
  | n + 1 => by
    have h1 := hAdj_mono_aux a n
    have h2 := hAdj_step (a + n)
    have h3 : a + (n + 1 : Nat) = a + n + 1 := by push_cast; ring
    rw [h3]
    exact le_trans h1 h2

theorem hAdj_mono {a b : Int} (h : a ≤ b) : hAdj a ≤ hAdj b := by
  have h1 : b = a + ((b - a).toNat : Int) := by omega
  rw [h1]
  exact hAdj_mono_aux a _

set_option maxHeartbeats 1000000 in
set_option maxRecDepth 10000 in
theorem hAdj_endpoints : ∀ r : Fin 400,
    365 * (r.val : Int) ≤ hAdj (civilYearStart (r.val : Int)) ∧
    hAdj (civilYearStart (r.val : Int) + (364 + hLeapB (r.val : Int)))
      ≤ 365 * (r.val : Int) + 364 := by
  decide

theorem yoe_recovery (r doy : Int) (h0 : 0 ≤ r) (h1 : r < 400)
    (h2 : 0 ≤ doy) (h3 : doy ≤ 364 + hLeapB r) :
    hAdj (civilYearStart r + doy) / 365 = r := by
  have he := hAdj_endpoints ⟨r.toNat, by omega⟩
  have hr : ((⟨r.toNat, by omega⟩ : Fin 400).val : Int) = r := by
    simp; omega
  rw [hr] at he
  have m1 : hAdj (civilYearStart r) ≤ hAdj (civilYearStart r + doy) :=
    hAdj_mono (by omega)
  have m2 : hAdj (civilYearStart r + doy) ≤ hAdj (civilYearStart r + (364 + hLeapB r)) :=
    hAdj_mono (by omega)
  have hb1 := le_trans he.1 m1
  have hb2 := le_trans m2 he.2
  omega

theorem hLeapB_eq (y era yoe : Int) (h2 : era = (y - 1) / 400)
    (h3 : yoe = (y - 1) - era * 400) :
    hLeapB yoe = if isLeap y then 1 else 0 := by
  unfold hLeapB isLeap
  simp only [decide_eq_true_eq]
  split <;> split <;> omega

theorem daysInMonth_le (y m : Int) : daysInMonth y m ≤ 31 := by
  unfold daysInMonth; split
  · split <;> omega
  · split <;> omega

theorem daysInMonth_pos (y m : Int) : 1 ≤ daysInMonth y m := by
  unfold daysInMonth; split
  · split <;> omega
  · split <;> omega

theorem daysInMonth_facts (y m : Int) :
    (m = 2 → daysInMonth y m = 28 + (if isLeap y then 1 else 0)) ∧
    (m = 4 ∨ m = 6 ∨ m = 9 ∨ m = 11 → daysInMonth y m = 30) := by
  constructor <;> intro h
  · unfold daysInMonth
    rw [if_pos h]
    split <;> omega
  · unfold daysInMonth
    rw [if_neg (by omega), if_pos h]

theorem md_recovery (mp d : Int) (h1 : 0 ≤ mp) (h2 : mp < 12) (h3 : 1 ≤ d)
    (h4 : d ≤ 31) (h5 : mp = 1 ∨ mp = 3 ∨ mp = 6 ∨ mp = 8 ∨ mp = 11 → d ≤ 30) :
    (5 * (monthDayStart mp + d - 1) + 2) / 153 = mp := by
  unfold monthDayStart
  have hc : mp = 0 ∨ mp = 1 ∨ mp = 2 ∨ mp = 3 ∨ mp = 4 ∨ mp = 5 ∨ mp = 6 ∨
      mp = 7 ∨ mp = 8 ∨ mp = 9 ∨ mp = 10 ∨ mp = 11 := by omega
  rcases hc with h | h | h | h | h | h | h | h | h | h | h | h <;> subst h <;> omega

theorem dfcYAdj_cases (y m : Int) :
    (m ≤ 2 → dfcYAdj y m = y - 1) ∧ (2 < m → dfcYAdj y m = y) := by
  unfold dfcYAdj
  constructor <;> intro h
  · rw [if_pos h]
  · rw [if_neg (by omega)]

theorem dfcYoe_range (y m : Int) : 0 ≤ dfcYoe y m ∧ dfcYoe y m < 400 := by
  unfold dfcYoe dfcEra
  omega

theorem dfcDoy_range (y m d : Int) (hv : ValidDate y m d) :
    0 ≤ dfcDoy m d ∧ dfcDoy m d ≤ 364 + hLeapB (dfcYoe y m) := by
  obtain ⟨hm1, hm2, hd1, hd2⟩ := hv
  have hdimF := daysInMonth_facts y m
  have hLB := hLeapB_nonneg (dfcYoe y m)
  have hyc := dfcYAdj_cases y m
  have hd31 := daysInMonth_le y m
  unfold dfcDoy monthDayStart
  constructor
  · omega
  · by_cases hc : m = 2
    · have hFebL : hLeapB (dfcYoe y m) = if isLeap y then 1 else 0 := by
        apply hLeapB_eq y (dfcEra y m)
        · unfold dfcEra; omega
        · unfold dfcYoe dfcEra; omega
      have hdim := hdimF.1 hc
      have hL01 : 0 ≤ (if isLeap y then (1:Int) else 0) ∧
          (if isLeap y then (1:Int) else 0) ≤ 1 := by split <;> omega
      omega
    · omega

theorem dfcDoe_range (y m d : Int) (hv : ValidDate y m d) :
    0 ≤ dfcDoe y m d ∧ dfcDoe y m d < 146097 := by
  have h1 := dfcDoy_range y m d hv
  have h2 := dfcYoe_range y m
  have h3 := hLeapB_le_one (dfcYoe y m)
  unfold dfcDoe civilYearStart
  omega

theorem d_le_31 (y m d : Int) (hv : ValidDate y m d) : d ≤ 31 :=
  le_trans hv.2.2.2 (daysInMonth_le y m)

theorem mp_eq (m : Int) (h1 : 1 ≤ m) (h2 : m ≤ 12) :
    (m + 9) % 12 = if m ≤ 2 then m + 9 else m - 3 := by
  split <;> omega

theorem roundTrip_era (y m d : Int) (hv : ValidDate y m d) :
    cfdEra (daysFromCivil y m d) = dfcEra y m := by
  have h1 := dfcDoe_range y m d hv
  unfold cfdEra daysFromCivil
  omega

theorem roundTrip_doe (y m d : Int) (hv : ValidDate y m d) :
    cfdDoe (daysFromCivil y m d) = dfcDoe y m d := by
  have h1 := roundTrip_era y m d hv
  unfold cfdDoe
  rw [h1]
  unfold daysFromCivil
  ring

theorem roundTrip_yoe (y m d : Int) (hv : ValidDate y m d) :
    cfdYoe (daysFromCivil y m d) = dfcYoe y m := by
  have h1 := roundTrip_doe y m d hv
  have h2 := dfcYoe_range y m
  have h3 := dfcDoy_range y m d hv
  unfold cfdYoe
  rw [h1]
  show hAdj (dfcDoe y m d) / 365 = dfcYoe y m
  unfold dfcDoe
  exact yoe_recovery _ _ h2.1 h2.2 h3.1 h3.2

theorem roundTrip_doy (y m d : Int) (hv : ValidDate y m d) :
    cfdDoy (daysFromCivil y m d) = dfcDoy m d := by
  have h1 := roundTrip_doe y m d hv
  have h2 := roundTrip_yoe y m d hv
  unfold cfdDoy
  rw [h1, h2]
  unfold dfcDoe
  ring

theorem dim30_bridge (y m d : Int) (hv : ValidDate y m d) :
    (m + 9) % 12 = 1 ∨ (m + 9) % 12 = 3 ∨ (m + 9) % 12 = 6 ∨
      (m + 9) % 12 = 8 ∨ (m + 9) % 12 = 11 → d ≤ 30 := by
  obtain ⟨hm1, hm2, hd1, hd2⟩ := hv
  intro hc
  have hdimF := daysInMonth_facts y m
  have hmval : m = 4 ∨ m = 6 ∨ m = 9 ∨ m = 11 ∨ m = 2 := by omega
  rcases hmval with h | h | h | h | h
  · have := hdimF.2 (by omega); omega
  · have := hdimF.2 (by omega); omega
  · have := hdimF.2 (by omega); omega
  · have := hdimF.2 (by omega); omega
  · have := hdimF.1 h
    have hL01 : 0 ≤ (if isLeap y then (1:Int) else 0) ∧
        (if isLeap y then (1:Int) else 0) ≤ 1 := by split <;> omega
    omega

theorem roundTrip_mp (y m d : Int) (hv : ValidDate y m d) :
    cfdMp (daysFromCivil y m d) = (m + 9) % 12 := by
  have h1 := roundTrip_doy y m d hv
  unfold cfdMp
  rw [h1]
  unfold dfcDoy
  exact md_recovery _ _ (by omega) (by omega) hv.2.2.1 (d_le_31 y m d hv)
    (dim30_bridge y m d hv)

theorem roundTrip_m (y m d : Int) (hv : ValidDate y m d) :
    cfdM (daysFromCivil y m d) = m := by
  have h1 := roundTrip_mp y m d hv
  have hm1 := hv.1
  have hm2 := hv.2.1
  unfold cfdM
  rw [h1]
  split <;> omega

theorem roundTrip_d (y m d : Int) (hv : ValidDate y m d) :
    cfdD (daysFromCivil y m d) = d := by
  have h1 := roundTrip_doy y m d hv
  have h2 := roundTrip_mp y m d hv
  unfold cfdD
  rw [h1, h2]
  unfold dfcDoy
  ring

theorem roundTrip_y (y m d : Int) (hv : ValidDate y m d) :
    cfdY (daysFromCivil y m d) = y := by
  have h1 := roundTrip_m y m d hv
  have h2 := roundTrip_yoe y m d hv
  have h3 := roundTrip_era y m d hv
  have hyc := dfcYAdj_cases y m
  have hm1 := hv.1
  have hm2 := hv.2.1
  unfold cfdY
  rw [h1, h2, h3]
  have hrel : dfcEra y m * 400 + dfcYoe y m = dfcYAdj y m := by
    unfold dfcYoe; ring
  split <;> omega

theorem civil_roundTrip (y m d : Int) (hv : ValidDate y m d) :
    civilFromDays (daysFromCivil y m d) = (y, m, d) := by
  unfold civilFromDays
  rw [roundTrip_y y m d hv, roundTrip_m y m d hv, roundTrip_d y m d hv]

/-! ## Calendar lemmas: monotonicity -/

theorem d_le_dimTable (y m d : Int) (hv : ValidDate y m d) :
    d ≤ dimTable ((m + 9) % 12) := by
  obtain ⟨hm1, hm2, hd1, hd2⟩ := hv
  have hdimF := daysInMonth_facts y m
  have hd31 := daysInMonth_le y m
  have hL01 : 0 ≤ (if isLeap y then (1:Int) else 0) ∧
      (if isLeap y then (1:Int) else 0) ≤ 1 := by split <;> omega
  unfold dimTable
  have hmc : m = 2 ∨ m = 4 ∨ m = 6 ∨ m = 9 ∨ m = 11 ∨
      ¬(m = 2 ∨ m = 4 ∨ m = 6 ∨ m = 9 ∨ m = 11) := by tauto
  rcases hmc with h | h | h | h | h | h
  · have := hdimF.1 h
    rw [if_neg (by omega), if_pos (by omega)]
    omega
  · have := hdimF.2 (by omega)
    rw [if_pos (by omega)]; omega
  · have := hdimF.2 (by omega)
    rw [if_pos (by omega)]; omega
  · have := hdimF.2 (by omega)
    rw [if_pos (by omega)]; omega
  · have := hdimF.2 (by omega)
    rw [if_pos (by omega)]; omega
  · split
    · omega
    · split <;> omega

set_option maxRecDepth 4000 in
theorem month_gap : ∀ a b : Fin 12, a.val < b.val →
    monthDayStart (a.val : Int) + dimTable (a.val : Int) ≤ monthDayStart (b.val : Int) := by
  decide

theorem cys_mono {a b : Int} (h : a ≤ b) : civilYearStart a ≤ civilYearStart b := by
  unfold civilYearStart; omega

theorem cys_step (r : Int) (h1 : 0 ≤ r) (h2 : r ≤ 398) :
    civilYearStart r + 364 + hLeapB r < civilYearStart (r + 1) := by
  unfold civilYearStart hLeapB
  split <;> omega

/-- Strict monotonicity of `daysFromCivil` on valid dates. -/
theorem daysFromCivil_lt (y1 m1 d1 y2 m2 d2 : Int)
    (v1 : ValidDate y1 m1 d1) (v2 : ValidDate y2 m2 d2)
    (hlt : y1 < y2 ∨ (y1 = y2 ∧ (m1 < m2 ∨ (m1 = m2 ∧ d1 < d2)))) :
    daysFromCivil y1 m1 d1 < daysFromCivil y2 m2 d2 := by
  have hyc1 := dfcYAdj_cases y1 m1
  have hyc2 := dfcYAdj_cases y2 m2
  have hm11 := v1.1
  have hm12 := v1.2.1
  have hm21 := v2.1
  have hm22 := v2.2.1
  -- lexicographic order descends to the shifted representation
  have hlex : dfcYAdj y1 m1 < dfcYAdj y2 m2 ∨
      (dfcYAdj y1 m1 = dfcYAdj y2 m2 ∧
        ((m1 + 9) % 12 < (m2 + 9) % 12 ∨
          ((m1 + 9) % 12 = (m2 + 9) % 12 ∧ d1 < d2))) := by
    omega
  -- day-of-year comparison within one shifted year
  have hdoy : dfcYAdj y1 m1 = dfcYAdj y2 m2 → dfcDoy m1 d1 < dfcDoy m2 d2 ∨
      (¬ ((m1 + 9) % 12 < (m2 + 9) % 12 ∨
          ((m1 + 9) % 12 = (m2 + 9) % 12 ∧ d1 < d2))) := by
    intro _
    by_cases hc : (m1 + 9) % 12 < (m2 + 9) % 12
    · left
      have hg := month_gap ⟨((m1 + 9) % 12).toNat, by omega⟩
        ⟨((m2 + 9) % 12).toNat, by omega⟩ (by simp; omega)
      have hgs : (((((m1 + 9) % 12).toNat : Nat) : Int)) = (m1 + 9) % 12 := by omega
      have hgs2 : (((((m2 + 9) % 12).toNat : Nat) : Int)) = (m2 + 9) % 12 := by omega
      simp only [hgs, hgs2] at hg
      have hd1 := d_le_dimTable y1 m1 d1 v1
      have hd21 := v2.2.2.1
      unfold dfcDoy
      omega
    · by_cases hc2 : (m1 + 9) % 12 = (m2 + 9) % 12 ∧ d1 < d2
      · left
        unfold dfcDoy
        rw [hc2.1]
        omega
      · right; tauto
  -- day-of-era comparison
  have hyoe1 := dfcYoe_range y1 m1
  have hyoe2 := dfcYoe_range y2 m2
  have hdoyR1 := dfcDoy_range y1 m1 d1 v1
  have hdoyR2 := dfcDoy_range y2 m2 d2 v2
  have hdoe : dfcYoe y1 m1 < dfcYoe y2 m2 ∨
      (dfcYoe y1 m1 = dfcYoe y2 m2 ∧ dfcDoy m1 d1 < dfcDoy m2 d2) →
      dfcDoe y1 m1 d1 < dfcDoe y2 m2 d2 := by
    intro h
    rcases h with h | ⟨h1, h2⟩
    · have hs := cys_step (dfcYoe y1 m1) hyoe1.1 (by omega)
      have hm := cys_mono (show dfcYoe y1 m1 + 1 ≤ dfcYoe y2 m2 by omega)
      unfold dfcDoe
      omega
    · unfold dfcDoe
      rw [h1]
      omega
  -- era split of the shifted years
  have heraRel1 : dfcEra y1 m1 * 400 + dfcYoe y1 m1 = dfcYAdj y1 m1 := by
    unfold dfcYoe; ring
  have heraRel2 : dfcEra y2 m2 * 400 + dfcYoe y2 m2 = dfcYAdj y2 m2 := by
    unfold dfcYoe; ring
  have hdoeR1 := dfcDoe_range y1 m1 d1 v1
  have hdoeR2 := dfcDoe_range y2 m2 d2 v2
  unfold daysFromCivil
  -- final case analysis
  rcases hlex with h | ⟨heq, hrest⟩
  · -- shifted years differ: compare eras, then years of era
    have : dfcEra y1 m1 < dfcEra y2 m2 ∨
        (dfcEra y1 m1 = dfcEra y2 m2 ∧ dfcYoe y1 m1 < dfcYoe y2 m2) := by omega
    rcases this with h2 | ⟨h2, h3⟩
    · omega
    · have := hdoe (Or.inl h3)
      omega
  · have hdd := hdoy heq
    rcases hdd with hdd | hdd
    · have : dfcEra y1 m1 = dfcEra y2 m2 ∧ dfcYoe y1 m1 = dfcYoe y2 m2 := by omega
      have := hdoe (Or.inr ⟨this.2, hdd⟩)
      omega
    · tauto

theorem makeDay_eq (y m d : Int) (h1 : 1 ≤ m) (h2 : m ≤ 12) :
    makeDay y (m - 1) d = daysFromCivil y m d := by
  unfold makeDay
  have e1 : (m - 1) / 12 = 0 := by omega
  have e2 : (m - 1) % 12 + 1 = m := by omega
  rw [e1, e2, add_zero]

/-- Strict monotonicity of `Date.UTC` on valid readings. -/
theorem dateUTC_lt (y1 m1 d1 h1 mi1 y2 m2 d2 h2 mi2 : Int)
    (v1 : ValidReading y1 m1 d1 h1 mi1) (v2 : ValidReading y2 m2 d2 h2 mi2)
    (hlt : ReadingLT y1 m1 d1 h1 mi1 y2 m2 d2 h2 mi2) :
    dateUTC y1 (m1 - 1) d1 h1 mi1 < dateUTC y2 (m2 - 1) d2 h2 mi2 := by
  obtain ⟨vd1, hy11, hy12, hh11, hh12, hmi11, hmi12⟩ := v1
  obtain ⟨vd2, hy21, hy22, hh21, hh22, hmi21, hmi22⟩ := v2
  unfold ReadingLT at hlt
  unfold dateUTC
  rw [makeDay_eq y1 m1 d1 vd1.1 vd1.2.1, makeDay_eq y2 m2 d2 vd2.1 vd2.2.1]
  by_cases hc : y1 < y2 ∨ (y1 = y2 ∧ (m1 < m2 ∨ (m1 = m2 ∧ d1 < d2)))
  · have := daysFromCivil_lt y1 m1 d1 y2 m2 d2 vd1 vd2 hc
    omega
  · have hde : y1 = y2 ∧ m1 = m2 ∧ d1 = d2 := by tauto
    obtain ⟨e1, e2, e3⟩ := hde
    rw [e1, e2, e3]
    omega

/-- Monotonicity of `Date.UTC` on valid readings. -/
theorem dateUTC_le (y1 m1 d1 h1 mi1 y2 m2 d2 h2 mi2 : Int)
    (v1 : ValidReading y1 m1 d1 h1 mi1) (v2 : ValidReading y2 m2 d2 h2 mi2)
    (hle : ReadingLE y1 m1 d1 h1 mi1 y2 m2 d2 h2 mi2) :
    dateUTC y1 (m1 - 1) d1 h1 mi1 ≤ dateUTC y2 (m2 - 1) d2 h2 mi2 := by
  rcases hle with h | ⟨e1, e2, e3, e4, e5⟩
  · exact le_of_lt (dateUTC_lt _ _ _ _ _ _ _ _ _ _ v1 v2 h)
  · rw [e1, e2, e3, e4, e5]

/-! ## Decimal digit lemmas -/

theorem natDigitsCore_small (f n : Nat) (h : n < 10) (acc : List Char) :
    natDigitsCore (f + 1) n acc = digitChar n :: acc := by
  unfold natDigitsCore
  rw [if_pos h]

theorem jsNatToString_small (n : Nat) (h : n < 10) :
    jsNatToString n = String.mk [digitChar n] := by
  unfold jsNatToString
  match n, h with
  | 0, _ => rfl
  | k + 1, h => rw [natDigitsCore_small k (k + 1) h]

theorem natDigitsCore_two (f n : Nat) (h1 : 10 ≤ n) (h2 : n < 100)
    (acc : List Char) :
    natDigitsCore (f + 2) n acc = digitChar (n / 10) :: digitChar (n % 10) :: acc := by
  show natDigitsCore (f + 1 + 1) n acc = _
  unfold natDigitsCore
  rw [if_neg (by omega)]
  rw [natDigitsCore_small f (n / 10) (by omega)]

theorem jsNatToString_two (n : Nat) (h1 : 10 ≤ n) (h2 : n < 100) :
    jsNatToString n = String.mk [digitChar (n / 10), digitChar (n % 10)] := by
  unfold jsNatToString
  have e : n = (n - 2) + 2 := by omega
  rw [show natDigitsCore n n [] = natDigitsCore ((n - 2) + 2) n [] by rw [← e]]
  rw [natDigitsCore_two (n - 2) n h1 h2]

theorem natDigitsCore_four (f n : Nat) (h1 : 1000 ≤ n) (h2 : n < 10000)
    (acc : List Char) :
    natDigitsCore (f + 4) n acc = digitChar (n / 1000) :: digitChar (n / 100 % 10) ::
      digitChar (n / 10 % 10) :: digitChar (n % 10) :: acc := by
  show natDigitsCore (f + 2 + 1 + 1) n acc = _
  unfold natDigitsCore
  rw [if_neg (by omega)]
  show natDigitsCore (f + 2 + 1) (n / 10) _ = _
  unfold natDigitsCore
  rw [if_neg (by omega)]
  rw [natDigitsCore_two f (n / 10 / 10) (by omega) (by omega)]
  have e1 : n / 10 / 10 / 10 = n / 1000 := by omega
  have e2 : n / 10 / 10 % 10 = n / 100 % 10 := by omega
  rw [e1, e2]

theorem jsNatToString_four (n : Nat) (h1 : 1000 ≤ n) (h2 : n < 10000) :
    jsNatToString n = String.mk [digitChar (n / 1000), digitChar (n / 100 % 10),
      digitChar (n / 10 % 10), digitChar (n % 10)] := by
  unfold jsNatToString
  have e : n = (n - 4) + 4 := by omega
  rw [show natDigitsCore n n [] = natDigitsCore ((n - 4) + 4) n [] by rw [← e]]
  rw [natDigitsCore_four (n - 4) n h1 h2]

theorem jsIntToString_nonneg (i : Int) (h : 0 ≤ i) :
    jsIntToString i = jsNatToString i.toNat := by
  unfold jsIntToString
  rw [if_neg (by omega)]
  congr 1
  omega

theorem pad2_small (i : Int) (h1 : 0 ≤ i) (h2 : i < 10) :
    pad2 i = String.mk ['0', digitChar i.toNat] := by
  unfold pad2
  rw [jsIntToString_nonneg i h1]
  rw [jsNatToString_small i.toNat (by omega)]
  rfl

theorem pad2_two (i : Int) (h1 : 10 ≤ i) (h2 : i < 100) :
    pad2 i = String.mk [digitChar (i.toNat / 10), digitChar (i.toNat % 10)] := by
  unfold pad2
  rw [jsIntToString_nonneg i (by omega)]
  rw [jsNatToString_two i.toNat (by omega) (by omega)]
  rfl

theorem pad2_eq (i : Int) (h1 : 0 ≤ i) (h2 : i < 100) :
    pad2 i = String.mk [digitChar (i.toNat / 10), digitChar (i.toNat % 10)] := by
  by_cases hc : i < 10
  · rw [pad2_small i h1 hc]
    have e1 : i.toNat / 10 = 0 := by omega
    have e2 : i.toNat % 10 = i.toNat := by omega
    rw [e1, e2]
    have e3 : digitChar 0 = '0' := by decide
    rw [e3]
  · exact pad2_two i (by omega) h2

theorem year4_eq (i : Int) (h1 : 1000 ≤ i) (h2 : i ≤ 9999) :
    jsIntToString i = String.mk [digitChar (i.toNat / 1000),
      digitChar (i.toNat / 100 % 10), digitChar (i.toNat / 10 % 10),
      digitChar (i.toNat % 10)] := by
  rw [jsIntToString_nonneg i (by omega)]
  rw [jsNatToString_four i.toNat (by omega) (by omega)]

theorem digitChar_inj_fin : ∀ a b : Fin 10, digitChar a.val = digitChar b.val → a = b := by
  decide

theorem digitChar_inj (a b : Nat) (h1 : a < 10) (h2 : b < 10)
    (h : digitChar a = digitChar b) : a = b := by
  have := digitChar_inj_fin ⟨a, h1⟩ ⟨b, h2⟩ h
  exact congrArg Fin.val this

theorem digit_toNat_bounds (c : Char) (h : isDigitJS c = true) :
    48 ≤ c.toNat ∧ c.toNat ≤ 57 := by
  unfold isDigitJS at h
  rw [Bool.and_eq_true, decide_eq_true_eq, decide_eq_true_eq] at h
  obtain ⟨h1, h2⟩ := h
  rw [Char.le_def] at h1 h2
  constructor
  · exact UInt32.le_toNat_of_le (by norm_num [UInt32.size]) h1
  · exact UInt32.toNat_le_of_le (by norm_num [UInt32.size]) h2

theorem digitVal_lt (c : Char) (h : isDigitJS c = true) : digitVal c < 10 := by
  have := digit_toNat_bounds c h
  unfold digitVal
  omega

theorem digitChar_digitVal (c : Char) (h : isDigitJS c = true) :
    digitChar (digitVal c) = c := by
  have hb := digit_toNat_bounds c h
  unfold digitChar digitVal
  have e : 48 + (c.toNat - 48) = c.toNat := by omega
  rw [e, Char.ofNat_toNat]

/-! ## Resolver lemmas -/

theorem findCurrentAndNext_at_start (entries : List Entry)
    (hval : ∀ e ∈ entries, e.startUtc < e.endUtc)
    (hsort : entries.Pairwise (fun a b => a.endUtc ≤ b.startUtc)) :
    ∀ k (hk : k < entries.length),
      findCurrentAndNext entries (entries[k].startUtc)
        = (some entries[k], (entries.drop (k + 1)).head?) := by
  induction entries with
  | nil => intro k hk; simp at hk
  | cons e rest ih =>
    intro k hk
    match k with
    | 0 =>
      simp only [List.getElem_cons_zero, List.drop_succ_cons, List.drop_zero]
      unfold findCurrentAndNext
      rw [if_pos ⟨le_refl _, hval e (by simp)⟩]
    | k + 1 =>
      have hk' : k < rest.length := by simpa using hk
      have hmem : rest[k] ∈ rest := List.getElem_mem hk'
      have hends : e.endUtc ≤ rest[k].startUtc :=
        (List.pairwise_cons.mp hsort).1 _ hmem
      have hev : e.startUtc < e.endUtc := hval e (by simp)
      simp only [List.getElem_cons_succ, List.drop_succ_cons]
      unfold findCurrentAndNext
      rw [if_neg (by omega), if_neg (by omega)]
      exact ih (fun x hx => hval x (by simp [hx]))
        (List.pairwise_cons.mp hsort).2 k hk'

theorem part001_scan_at_start (pl : List PEntry)
    (hval : ∀ e ∈ pl, e.startMin < e.endMin)
    (hsort : pl.Pairwise (fun a b => a.endMin ≤ b.startMin)) :
    ∀ k (hk : k < pl.length),
      part001_scanCurrent pl (pl[k].startMin)
        = some (pl[k], (pl.drop (k + 1)).head?) := by
  induction pl with
  | nil => intro k hk; simp at hk
  | cons e rest ih =>
    intro k hk
    match k with
    | 0 =>
      simp only [List.getElem_cons_zero, List.drop_succ_cons, List.drop_zero]
      unfold part001_scanCurrent
      rw [if_pos ⟨le_refl _, hval e (by simp)⟩]
    | k + 1 =>
      have hk' : k < rest.length := by simpa using hk
      have hmem : rest[k] ∈ rest := List.getElem_mem hk'
      have hends : e.endMin ≤ rest[k].startMin :=
        (List.pairwise_cons.mp hsort).1 _ hmem
      have hev : e.startMin < e.endMin := hval e (by simp)
      simp only [List.getElem_cons_succ, List.drop_succ_cons]
      unfold part001_scanCurrent
      rw [if_neg (by omega)]
      exact ih (fun x hx => hval x (by simp [hx]))
        (List.pairwise_cons.mp hsort).2 k hk'

theorem findCurrentAndNext_none (entries : List Entry) (now : Int)
    (h : ∀ e ∈ entries, ¬(e.startUtc ≤ now ∧ now < e.endUtc)) :
    findCurrentAndNext entries now
      = (none, entries.find? (fun e => decide (now < e.startUtc))) := by
  induction entries with
  | nil => rfl
  | cons e rest ih =>
    have he := h e (by simp)
    unfold findCurrentAndNext
    rw [if_neg he]
    by_cases hc : now < e.startUtc
    · rw [if_pos hc]
      have hb : decide (now < e.startUtc) = true := by simpa using hc
      simp only [List.find?_cons, hb]
    · rw [if_neg hc]
      have hb : decide (now < e.startUtc) = false := by simpa using hc
      simp only [List.find?_cons, hb]
      exact ih (fun x hx => h x (by simp [hx]))

theorem part001_scan_none (pl : List PEntry) (now : Int)
    (h : ∀ e ∈ pl, ¬(e.startMin ≤ now ∧ now < e.endMin)) :
    part001_scanCurrent pl now = none := by
  induction pl with
  | nil => rfl
  | cons e rest ih =>
    have he := h e (by simp)
    unfold part001_scanCurrent
    rw [if_neg he]
    exact ih (fun x hx => h x (by simp [hx]))

/-- C1: with the data-model invariant (positive intervals, non-overlapping
and sorted), an instant equal to an interval's start resolves as that
interval being current, in both cited resolvers, and the next interval is
the following element. -/
theorem c1_boundary_start_is_current (entries : List Entry)
    (hval : ∀ e ∈ entries, e.startUtc < e.endUtc)
    (hsort : entries.Pairwise (fun a b => a.endUtc ≤ b.startUtc))
    (k : Nat) (hk : k < entries.length)
    (pl : List PEntry)
    (hval2 : ∀ e ∈ pl, e.startMin < e.endMin)
    (hsort2 : pl.Pairwise (fun a b => a.endMin ≤ b.startMin))
    (j : Nat) (hj : j < pl.length) :
    findCurrentAndNext entries (entries[k].startUtc)
        = (some entries[k], (entries.drop (k + 1)).head?) ∧
    part001_findCurrentAndNext pl (pl[j].startMin)
        = (some pl[j], (pl.drop (j + 1)).head?,
           some (pl[j].endMin - pl[j].startMin)) := by
  constructor
  · exact findCurrentAndNext_at_start entries hval hsort k hk
  · unfold part001_findCurrentAndNext
    rw [part001_scan_at_start pl hval2 hsort2 j hj]

theorem c1_boundary_start_is_current_witness :
    (∀ e ∈ [(⟨"A", 0, 10⟩ : Entry), ⟨"B", 10, 20⟩], e.startUtc < e.endUtc) ∧
    ([(⟨"A", 0, 10⟩ : Entry), ⟨"B", 10, 20⟩].Pairwise (fun a b => a.endUtc ≤ b.startUtc)) ∧
    findCurrentAndNext [⟨"A", 0, 10⟩, ⟨"B", 10, 20⟩] 10 = (some ⟨"B", 10, 20⟩, none) := by
  refine ⟨by decide, by decide, ?_⟩
  have h := c1_boundary_start_is_current [⟨"A", 0, 10⟩, ⟨"B", 10, 20⟩]
    (by decide) (by decide) 1 (by decide)
    [⟨"A", 0, 10⟩] (by decide) (by decide) 0 (by decide)
  exact h.1

/-- C4: the empty interval sequence resolves to an all-`null` state in
both cited resolvers, as a plain value. -/
theorem c4_empty_resolves_null (now : Int) :
    findCurrentAndNext [] now = (none, none) ∧
    part001_findCurrentAndNext [] now = (none, none, none) := by
  constructor <;> rfl

/-- C2 counterexample: the `part_000` lines 444-464 resolver, on an
instant past the single interval (so that no interval contains it),
returns that interval as `current` instead of `null`. -/
theorem c2_counterexample :
    (∀ e ∈ [(⟨"A", 0, 10⟩ : Interval000)], ¬(e.start ≤ 20 ∧ 20 < e.stop)) ∧
    part000_findCurrentAndNext [⟨"A", 0, 10⟩] 20 = (some ⟨"A", 0, 10⟩, none) := by
  constructor
  · decide
  · rfl

/-- C2 (amended): for the `script.js` and `part_001` resolvers, when no
interval contains `now`, `current` is `null`, `next` is the first interval
with `start > now` (`null` if none), and the `part_001` resolver's
`remaining` is `null`. -/
theorem c2_amended_no_current (entries : List Entry) (pl : List PEntry) (now : Int)
    (h : ∀ e ∈ entries, ¬(e.startUtc ≤ now ∧ now < e.endUtc))
    (h2 : ∀ e ∈ pl, ¬(e.startMin ≤ now ∧ now < e.endMin)) :
    findCurrentAndNext entries now
        = (none, entries.find? (fun e => decide (now < e.startUtc))) ∧
    part001_findCurrentAndNext pl now
        = (none, pl.find? (fun e => decide (now < e.startMin)), none) := by
  constructor
  · exact findCurrentAndNext_none entries now h
  · unfold part001_findCurrentAndNext
    rw [part001_scan_none pl now h2]

theorem c2_amended_no_current_witness :
    (∀ e ∈ [(⟨"A", 0, 10⟩ : Entry), ⟨"B", 20, 30⟩], ¬(e.startUtc ≤ 15 ∧ 15 < e.endUtc)) ∧
    findCurrentAndNext [⟨"A", 0, 10⟩, ⟨"B", 20, 30⟩] 15 = (none, some ⟨"B", 20, 30⟩) := by
  refine ⟨by decide, ?_⟩
  have h := c2_amended_no_current [⟨"A", 0, 10⟩, ⟨"B", 20, 30⟩] [] 15
    (by decide) (by decide)
  rw [h.1]
  rfl

/-! ## Line splitting and joining -/

theorem mk_data (s : String) : String.mk s.data = s := by
  obtain ⟨d⟩ := s; rfl

theorem splitLinesCh_cons (c : Char) (l : List Char) :
    splitLinesCh (c :: l) =
      match splitLinesCh l with
      | [] => [[c]]
      | a :: rest => if c = '\n' then [] :: a :: rest else (c :: a) :: rest := rfl

theorem splitLinesCh_ne_nil (l : List Char) : splitLinesCh l ≠ [] := by
  induction l with
  | nil => simp [splitLinesCh]
  | cons c l ih =>
    rw [splitLinesCh_cons]
    cases hh : splitLinesCh l with
    | nil => simp
    | cons a rest => dsimp only; split <;> simp

theorem splitLinesCh_no_nl (l : List Char) (h : '\n' ∉ l) : splitLinesCh l = [l] := by
  induction l with
  | nil => rfl
  | cons c l ih =>
    have hc : c ≠ '\n' := by intro hx; exact h (by simp [hx])
    rw [splitLinesCh_cons, ih (by intro hx; exact h (by simp [hx]))]
    dsimp only
    rw [if_neg hc]

theorem splitLinesCh_append (a b : List Char) (h : '\n' ∉ a) :
    splitLinesCh (a ++ '\n' :: b) = a :: splitLinesCh b := by
  induction a with
  | nil =>
    simp only [List.nil_append]
    rw [splitLinesCh_cons]
    cases hh : splitLinesCh b with
    | nil => exact absurd hh (splitLinesCh_ne_nil b)
    | cons x rest => dsimp only; rw [if_pos rfl]
  | cons c a ih =>
    have hc : c ≠ '\n' := by intro hx; exact h (by simp [hx])
    simp only [List.cons_append]
    rw [splitLinesCh_cons, ih (by intro hx; exact h (by simp [hx]))]
    dsimp only
    rw [if_neg hc]

theorem jsSplitNl_joinNl (lines : List String) (h : ∀ l ∈ lines, '\n' ∉ l.data)
    (hne : lines ≠ []) : jsSplitNl (joinNl lines) = lines := by
  induction lines with
  | nil => exact absurd rfl hne
  | cons l rest ih =>
    match rest with
    | [] =>
      show jsSplitNl l = [l]
      unfold jsSplitNl
      rw [splitLinesCh_no_nl l.data (h l (by simp))]
      simp [mk_data]
    | r :: rs =>
      show jsSplitNl (l ++ "\n" ++ joinNl (r :: rs)) = l :: r :: rs
      unfold jsSplitNl
      have hd : (l ++ "\n" ++ joinNl (r :: rs)).data
          = l.data ++ '\n' :: (joinNl (r :: rs)).data := by
        simp [String.data_append]
      rw [hd, splitLinesCh_append _ _ (h l (by simp))]
      have ihr := ih (fun x hx => h x (by simp at hx ⊢; tauto)) (by simp)
      unfold jsSplitNl at ihr
      simp only [List.map_cons, mk_data]
      rw [show (splitLinesCh (joinNl (r :: rs)).data).map String.mk = r :: rs from ihr]

/-- The record list determined by a list of lines. -/
theorem sectionRecords_joinNl (lines : List String) (h : ∀ l ∈ lines, '\n' ∉ l.data) :
    sectionRecords (joinNl lines)
      = ((lines.map jsTrim).filter (fun l => l ≠ "")).filterMap parseLine := by
  match lines with
  | [] => rfl
  | l :: rest =>
    unfold sectionRecords
    rw [jsSplitNl_joinNl (l :: rest) h (by simp)]

theorem parseLine_empty : parseLine "" = none := rfl

/-- A line with no colon cannot match the record grammar. -/
theorem parseLine_no_colon (line : String) (h : ':' ∉ line.data) :
    parseLine line = none := by
  unfold parseLine
  suffices hf : parseLineFront line.data = none by rw [hf]
  unfold parseLineFront
  have hd : line.data.dropWhile (fun c => decide (c ≠ ':')) = [] := by
    rw [List.dropWhile_eq_nil_iff]
    intro x hx
    simp
    intro he
    exact h (he ▸ hx)
  split
  · rfl
  · rw [hd]

/-- Inserting a line whose trimmed text does not match the record grammar
does not change `parseIntervals` (`src/script.js`). -/
theorem parseIntervals_skip_line (off : Int) (pre post : List String) (bad : String)
    (hnl : ∀ l ∈ pre ++ bad :: post, '\n' ∉ l.data)
    (hbad : parseLine (jsTrim bad) = none) :
    parseIntervals (joinNl (pre ++ bad :: post)) off
      = parseIntervals (joinNl (pre ++ post)) off := by
  unfold parseIntervals
  rw [sectionRecords_joinNl _ hnl,
    sectionRecords_joinNl _ (fun x hx => hnl x (by simp at hx ⊢; tauto))]
  simp only [List.map_append, List.filter_append, List.filterMap_append, List.map_cons]
  by_cases hc : jsTrim bad = ""
  · rw [List.filter_cons_of_neg (by simp [hc])]
  · rw [List.filter_cons_of_pos (by simp [hc])]
    simp [List.filterMap_cons, hbad]

/-! ## Absence of a section label -/

theorem headerMatchAt_none_of_matchCI (label cs : List Char)
    (h : matchCI label cs = none) : headerMatchAt label cs = none := by
  unfold headerMatchAt
  rw [h]
  rfl

theorem findHeaderCapture_of_not_occurs (label : List Char) :
    ∀ text : List Char, occursCI label text = false →
      findHeaderCapture label text = none := by
  intro text
  induction text with
  | nil => intro h; rfl
  | cons c rest ih =>
    intro h
    unfold occursCI at h
    rw [Bool.or_eq_false_iff] at h
    have h1 : matchCI label (c :: rest) = none := by
      cases hm : matchCI label (c :: rest) with
      | none => rfl
      | some v => rw [hm] at h; simp at h
    unfold findHeaderCapture
    rw [headerMatchAt_none_of_matchCI _ _ h1]
    exact ih h.2

/-- C5: a non-matching line is skipped with parsing continuing, and a text
in which the section label does not occur (case-insensitively) yields an
empty interval list; both parsing stages are total functions, so no
exception can escape. -/
theorem c5_malformed_skipped (off : Int) (pre post : List String) (bad : String)
    (text label : String)
    (hnl : ∀ l ∈ pre ++ bad :: post, '\n' ∉ l.data)
    (hbad : parseLine (jsTrim bad) = none)
    (habs : occursCI label.data text.data = false) :
    parseIntervals (joinNl (pre ++ bad :: post)) off
        = parseIntervals (joinNl (pre ++ post)) off ∧
    parseIntervals (extractSection text label) off = [] := by
  constructor
  · exact parseIntervals_skip_line off pre post bad hnl hbad
  · unfold extractSection
    rw [findHeaderCapture_of_not_occurs label.data text.data habs]
    rfl

theorem c5_malformed_skipped_witness :
    parseLine (jsTrim "Prathama: 2025/12/04 25:14 until 2025/12/05 11:26") = none ∧
    occursCI "Yogam".data "Thithi details:\n====\nA: B".data = false ∧
    parseIntervals (joinNl ["Prathama: 2025/12/04 15:14 to 2025/12/05 11:26",
        "Prathama: 2025/12/04 25:14 until 2025/12/05 11:26"]) 0
      = parseIntervals (joinNl ["Prathama: 2025/12/04 15:14 to 2025/12/05 11:26"]) 0 ∧
    parseIntervals (extractSection "Thithi details:\n====\nA: B" "Yogam") 0 = [] := by
  refine ⟨by decide, by decide, ?_, ?_⟩
  · exact (c5_malformed_skipped 0 ["Prathama: 2025/12/04 15:14 to 2025/12/05 11:26"] []
      "Prathama: 2025/12/04 25:14 until 2025/12/05 11:26"
      "Thithi details:\n====\nA: B" "Yogam" (by decide) (by decide) (by decide)).1
  · exact (c5_malformed_skipped 0 [] [] ""
      "Thithi details:\n====\nA: B" "Yogam" (by decide) (by decide) (by decide)).2

/-! ## `parsePanchangam` skipping behaviour -/

theorem isPrefixOf_exists (p : List Char) :
    ∀ l : List Char, p.isPrefixOf l = true → l = p ++ l.drop p.length := by
  induction p with
  | nil => intro l _; rfl
  | cons c p ih =>
    intro l h
    match l with
    | [] => simp [List.isPrefixOf] at h
    | x :: xs =>
      simp only [List.isPrefixOf, Bool.and_eq_true, beq_iff_eq] at h
      have := ih xs h.2
      simp only [List.cons_append, List.length_cons, List.drop_succ_cons]
      rw [h.1, ← this]

theorem next_not_headers (l : List Char) (h : List.isPrefixOf "next ".data l = true) :
    List.isPrefixOf "thithi details".data l = false ∧
    List.isPrefixOf "nakshatram details".data l = false ∧
    List.isPrefixOf "yogam details".data l = false ∧
    List.isPrefixOf "karanam details".data l = false := by
  have hl := isPrefixOf_exists _ l h
  rw [hl]
  refine ⟨rfl, rfl, rfl, rfl⟩

theorem parsePanchangamStep_next (off : Int) (acc : PanchangamData × Option PSection)
    (nx : String)
    (hnx : jsStartsWith (String.mk (lowerStr (jsTrim nx).data)) "next " = true) :
    parsePanchangamStep off acc nx = acc := by
  unfold parsePanchangamStep
  unfold jsStartsWith at hnx
  have hne : jsTrim nx ≠ "" := by
    intro he
    rw [he] at hnx
    simp [lowerStr, List.isPrefixOf] at hnx
  rw [if_neg hne]
  have hh := next_not_headers _ hnx
  unfold jsStartsWith
  rw [if_neg (by simp [hh.1]), if_neg (by simp [hh.2.1]), if_neg (by simp [hh.2.2.1]),
    if_neg (by simp [hh.2.2.2]), if_pos hnx]

theorem dropCR_no_cr (l : List Char) (h : '\r' ∉ l) : dropCR l = l := by
  unfold dropCR
  split
  · rename_i rest heq
    exfalso
    apply h
    rw [← List.mem_reverse, heq]
    simp
  · rfl

theorem jsSplitCRLF_joinNl (lines : List String)
    (h : ∀ l ∈ lines, '\n' ∉ l.data ∧ '\r' ∉ l.data) (hne : lines ≠ []) :
    jsSplitCRLF (joinNl lines) = lines := by
  have h1 : jsSplitNl (joinNl lines) = lines :=
    jsSplitNl_joinNl lines (fun l hl => (h l hl).1) hne
  unfold jsSplitNl at h1
  unfold jsSplitCRLF
  have h2 : (splitLinesCh (joinNl lines).data).map dropCR
      = (splitLinesCh (joinNl lines).data).map id := by
    apply List.map_congr_left
    intro x hx
    show dropCR x = x
    apply dropCR_no_cr
    intro hr
    have hxs : String.mk x ∈ lines := by
      rw [← h1]
      exact List.mem_map_of_mem String.mk hx
    exact (h _ hxs).2 hr
  rw [h2, List.map_id, h1]

/-- Inserting a line whose trimmed, lower-cased text begins with `"next "`
does not change `parsePanchangam` (second `src/script.js` variant). -/
theorem parsePanchangam_skip_next (off : Int) (pre post : List String) (nx : String)
    (hnl : ∀ l ∈ pre ++ nx :: post, '\n' ∉ l.data ∧ '\r' ∉ l.data)
    (hnx : jsStartsWith (String.mk (lowerStr (jsTrim nx).data)) "next " = true) :
    parsePanchangam off (joinNl (pre ++ nx :: post))
      = parsePanchangam off (joinNl (pre ++ post)) := by
  unfold parsePanchangam
  rw [jsSplitCRLF_joinNl _ hnl (by simp)]
  by_cases hpp : pre ++ post = []
  · have hpre : pre = [] := by cases pre <;> simp_all
    have hpost : post = [] := by cases post <;> simp_all
    rw [hpre, hpost]
    simp only [List.nil_append, List.foldl_cons, List.foldl_nil]
    rw [parsePanchangamStep_next off _ nx hnx]
    rfl
  · rw [jsSplitCRLF_joinNl _ (fun x hx => hnl x (by simp at hx ⊢; tauto)) hpp]
    rw [List.foldl_append, List.foldl_append, List.foldl_cons]
    rw [parsePanchangamStep_next off _ nx hnx]

/-- C6 counterexample: `parseIntervals` does parse a `"Next "` line whose
remainder matches the record grammar — the interval named `"Next Foo"`
appears in the output. -/
theorem c6_counterexample :
    jsStartsWith (String.mk (lowerStr
      (jsTrim "Next Foo: 2025/12/04 15:14 to 2025/12/05 11:26").data)) "next " = true ∧
    (parseIntervals "Next Foo: 2025/12/04 15:14 to 2025/12/05 11:26" 0).map Entry.name
      = ["Next Foo"] := by
  constructor
  · decide
  · rfl

/-- C6 (amended): `parsePanchangam` skips `"Next "` lines (and blank
lines), while `parseIntervals` skips blank lines and every line without a
colon-led record shape — in particular `===` divider lines — but not
`"Next "` lines. -/
theorem c6_amended_skips (off : Int) (pre post pre2 post2 : List String)
    (nx bad : String)
    (hnl1 : ∀ l ∈ pre ++ nx :: post, '\n' ∉ l.data ∧ '\r' ∉ l.data)
    (hnx : jsStartsWith (String.mk (lowerStr (jsTrim nx).data)) "next " = true)
    (hnl2 : ∀ l ∈ pre2 ++ bad :: post2, '\n' ∉ l.data)
    (hbad : ':' ∉ (jsTrim bad).data) :
    parsePanchangam off (joinNl (pre ++ nx :: post))
        = parsePanchangam off (joinNl (pre ++ post)) ∧
    parseIntervals (joinNl (pre2 ++ bad :: post2)) off
        = parseIntervals (joinNl (pre2 ++ post2)) off := by
  constructor
  · exact parsePanchangam_skip_next off pre post nx hnl1 hnx
  · exact parseIntervals_skip_line off pre2 post2 bad hnl2
      (parseLine_no_colon _ hbad)

theorem c6_amended_skips_witness :
    parsePanchangam 0 (joinNl [
        "Thithi details:",
        "Prathama: 2025/12/04 15:14 to 2025/12/05 11:26",
        "Next Thithi: 2025/12/05 11:26 to 2025/12/06 08:02"])
      = parsePanchangam 0 (joinNl [
        "Thithi details:",
        "Prathama: 2025/12/04 15:14 to 2025/12/05 11:26"]) ∧
    parseIntervals (joinNl [
        "=====",
        "Prathama: 2025/12/04 15:14 to 2025/12/05 11:26"]) 0
      = parseIntervals (joinNl [
        "Prathama: 2025/12/04 15:14 to 2025/12/05 11:26"]) 0 := by
  have h := c6_amended_skips 0
    ["Thithi details:", "Prathama: 2025/12/04 15:14 to 2025/12/05 11:26"] []
    [] ["Prathama: 2025/12/04 15:14 to 2025/12/05 11:26"]
    "Next Thithi: 2025/12/05 11:26 to 2025/12/06 08:02" "====="
    (by decide) (by decide) (by decide) (by decide)
  exact h

/-! ## The parser invariant (claim C3) -/

theorem chain'_imp_mem {α : Type} {R S : α → α → Prop} :
    ∀ l : List α, (∀ a ∈ l, ∀ b ∈ l, R a b → S a b) → l.Chain' R → l.Chain' S
  | [] => by intro _ _; trivial
  | [a] => by intro _ _; simp
  | a :: b :: t => by
    intro h hc
    rw [List.chain'_cons] at hc ⊢
    refine ⟨h a (by simp) b (by simp) hc.1, ?_⟩
    exact chain'_imp_mem (b :: t)
      (fun x hx y hy hxy => h x (by simp at hx ⊢; tauto) y (by simp at hy ⊢; tauto) hxy)
      hc.2

theorem chainedRecords_chain' : ∀ l : List RawRecord, ChainedRecords l →
    l.Chain' RecordsChained
  | [] => by intro _; trivial
  | [_] => by intro _; simp
  | a :: b :: t => by
    intro h
    rw [List.chain'_cons]
    exact ⟨h.1, chainedRecords_chain' (b :: t) h.2⟩

theorem toEntry_valid_lt (off : Int) (r : RawRecord) (hv : ValidRecord r)
    (ho : RecordOrdered r) :
    (toEntry off r).startUtc < (toEntry off r).endUtc := by
  unfold toEntry cityLocalToUtcMs
  dsimp only
  have := dateUTC_lt r.sy r.sm r.sd r.sh r.smin r.ey r.em r.ed r.eh r.emin
    hv.1 hv.2 ho
  omega

theorem toEntry_chain (off : Int) (a b : RawRecord) (hva : ValidRecord a)
    (hvb : ValidRecord b) (hc : RecordsChained a b) :
    (toEntry off a).endUtc ≤ (toEntry off b).startUtc := by
  unfold toEntry cityLocalToUtcMs
  dsimp only
  have := dateUTC_le a.ey a.em a.ed a.eh a.emin b.sy b.sm b.sd b.sh b.smin
    hva.2 hvb.1 hc
  omega

/-- C3 counterexample: a record line with reversed timestamps parses to an
interval with `endUtc < startUtc`; the parser performs no validation. -/
theorem c3_counterexample :
    (parseIntervals "B: 2025/12/05 11:26 to 2025/12/04 15:14" 0).map
      (fun e => decide (e.startUtc < e.endUtc)) = [false] := by
  rfl

/-- C3 (amended): when the matched record lines of the source text carry
in-range civil readings in chronological order (start before end inside
each record, records chained end-to-start), the parsed sequence satisfies
`start < end` for every interval and `end ≤ start` between neighbours. -/
theorem c3_amended_parser_invariant (text : String) (off : Int)
    (hval : ∀ r ∈ sectionRecords text, ValidRecord r)
    (hord : ∀ r ∈ sectionRecords text, RecordOrdered r)
    (hchain : ChainedRecords (sectionRecords text)) :
    (∀ e ∈ parseIntervals text off, e.startUtc < e.endUtc) ∧
    (parseIntervals text off).Chain' (fun a b => a.endUtc ≤ b.startUtc) := by
  constructor
  · intro e he
    unfold parseIntervals at he
    obtain ⟨r, hr, rfl⟩ := List.mem_map.mp he
    exact toEntry_valid_lt off r (hval r hr) (hord r hr)
  · unfold parseIntervals
    rw [List.chain'_map]
    exact chain'_imp_mem _
      (fun a ha b hb hab => toEntry_chain off a b (hval a ha) (hval b hb) hab)
      (chainedRecords_chain' _ hchain)

theorem c3_amended_parser_invariant_witness :
    (∀ e ∈ parseIntervals
        "Prathama: 2025/12/04 15:14 to 2025/12/05 11:26\nVidhiya: 2025/12/05 11:26 to 2025/12/06 08:02"
        (-480), e.startUtc < e.endUtc) ∧
    (parseIntervals
        "Prathama: 2025/12/04 15:14 to 2025/12/05 11:26\nVidhiya: 2025/12/05 11:26 to 2025/12/06 08:02"
        (-480)).Chain' (fun a b => a.endUtc ≤ b.startUtc) :=
  c3_amended_parser_invariant _ (-480) (by decide) (by decide) (by decide)

/-! ## Remaining-duration formatting (claim C8) -/

/-- C8 counterexample: the `part_001` formatter does not omit the hour
clause when the hour count is zero. -/
theorem c8_counterexample :
    part001_formatRemaining (some 30) = "0 hours 30 minutes remaining" := by
  decide

/-- C8 (amended): the `script.js` formatter renders
`"<H> hour(s) <M> minute(s) remaining"` with the hour clause omitted when
the hour count is zero and a fixed sentinel for non-positive input, with
singular-aware units; the `part_001` formatter always includes the hour
clause (`"<H> hours <M> minutes remaining"`) and renders the sentinel
`"—"` for `null` or non-positive remaining minutes. -/
theorem c8_amended_remaining_format (ms : Int) :
    (ms ≤ 0 → formatRemaining ms = "0 minutes remaining") ∧
    (0 < ms → ms < 3600000 →
      formatRemaining ms = jsIntToString (ms / 60000) ++ " minute"
        ++ (if ms / 60000 ≠ 1 then "s" else "") ++ " remaining") ∧
    (3600000 ≤ ms →
      formatRemaining ms = jsIntToString (ms / 60000 / 60) ++ " hour"
        ++ (if 1 < ms / 60000 / 60 then "s" else "") ++ " "
        ++ jsIntToString (ms / 60000 % 60) ++ " minute"
        ++ (if ms / 60000 % 60 ≠ 1 then "s" else "") ++ " remaining") ∧
    part001_formatRemaining none = "—" ∧
    (∀ mm : Int, mm ≤ 0 → part001_formatRemaining (some mm) = "—") ∧
    (∀ mm : Int, 0 < mm → part001_formatRemaining (some mm)
        = jsIntToString (mm / 60) ++ " hours " ++ jsIntToString (mm % 60)
          ++ " minutes remaining") ∧
    formatRemaining 5400000 = "1 hour 30 minutes remaining" ∧
    part001_formatRemaining (some 90) = "1 hours 30 minutes remaining" := by
  refine ⟨?_, ?_, ?_, by decide, ?_, ?_, by decide, by decide⟩
  · intro h
    unfold formatRemaining
    rw [if_pos h]
  · intro h1 h2
    unfold formatRemaining
    rw [if_neg (by omega), if_neg (by omega)]
    have e : ms / 60000 % 60 = ms / 60000 := by omega
    rw [e]
  · intro h
    unfold formatRemaining
    rw [if_neg (by omega), if_pos (by omega)]
  · intro mm h
    unfold part001_formatRemaining
    dsimp only
    rw [if_pos h]
  · intro mm h
    unfold part001_formatRemaining
    dsimp only
    rw [if_neg (by omega)]

theorem c8_amended_remaining_format_witness :
    formatRemaining 1800000 = "30 minutes remaining" := by
  have h := (c8_amended_remaining_format 1800000).2.1 (by omega) (by omega)
  rw [h]
  decide

/-! ## The civil round trip through formatting (claim C10) -/

theorem utc_fields_of_dateUTC (y m d h min : Int) (hv : ValidReading y m d h min) :
    utcYMD (dateUTC y (m - 1) d h min) = (y, m, d) ∧
    utcHour (dateUTC y (m - 1) d h min) = h ∧
    utcMinute (dateUTC y (m - 1) d h min) = min := by
  obtain ⟨hvd, hy1, hy2, hh1, hh2, hm1, hm2⟩ := hv
  have hmk := makeDay_eq y m d hvd.1 hvd.2.1
  unfold dateUTC utcYMD utcHour utcMinute msToDay msOfDay
  rw [hmk]
  have hday : (daysFromCivil y m d * 86400000 + h * 3600000 + min * 60000) / 86400000
      = daysFromCivil y m d := by omega
  refine ⟨?_, by omega, by omega⟩
  rw [hday]
  exact civil_roundTrip y m d hvd

/-- C10: converting an in-range civil reading with `cityLocalToUtcMs` and
formatting the result back with `formatCityDateTime` at the same offset
yields exactly the zero-padded rendering of the original reading. -/
theorem c10_civil_format_roundtrip (y m d h min off : Int)
    (hv : ValidReading y m d h min) :
    formatCityDateTime (cityLocalToUtcMs y m d h min off) off
      = jsIntToString y ++ "/" ++ pad2 m ++ "/" ++ pad2 d ++ " "
        ++ pad2 h ++ ":" ++ pad2 min := by
  unfold cityLocalToUtcMs formatCityDateTime
  have hcity : dateUTC y (m - 1) d h min - off * 60 * 1000 + off * 60 * 1000
      = dateUTC y (m - 1) d h min := by ring
  rw [hcity]
  dsimp only
  have hf := utc_fields_of_dateUTC y m d h min hv
  rw [hf.1, hf.2.1, hf.2.2]

theorem c10_civil_format_roundtrip_witness :
    ValidReading 2025 12 4 15 14 ∧
    formatCityDateTime (cityLocalToUtcMs 2025 12 4 15 14 (-480)) (-480)
      = "2025/12/04 15:14" := by
  refine ⟨by decide, ?_⟩
  have h := c10_civil_format_roundtrip 2025 12 4 15 14 (-480) (by decide)
  rw [h]
  decide

/-! ## The today filter (claim C9) -/

theorem parseDate_shape (cs : List Char) (ymd : Nat × Nat × Nat) (raw rest : List Char)
    (h : parseDate cs = some (ymd, raw, rest)) :
    ymd.1 ≤ 9999 ∧ ymd.2.1 ≤ 99 ∧ ymd.2.2 ≤ 99 ∧
    raw = dateDigits ymd.1 ymd.2.1 ymd.2.2 := by
  unfold parseDate at h
  split at h
  case h_2 => exact absurd h (by simp)
  case h_1 c1 c2 c3 c4 c5 c6 c7 c8 rest' =>
    split at h
    case isFalse => exact absurd h (by simp)
    case isTrue hd =>
      simp only [Bool.and_eq_true] at hd
      obtain ⟨⟨⟨⟨⟨⟨⟨h1, h2⟩, h3⟩, h4⟩, h5⟩, h6⟩, h7⟩, h8⟩ := hd
      injection h with h
      injection h with hymd h
      injection h with hraw hrest
      have v1 := digitVal_lt c1 h1
      have v2 := digitVal_lt c2 h2
      have v3 := digitVal_lt c3 h3
      have v4 := digitVal_lt c4 h4
      have v5 := digitVal_lt c5 h5
      have v6 := digitVal_lt c6 h6
      have v7 := digitVal_lt c7 h7
      have v8 := digitVal_lt c8 h8
      subst hymd
      refine ⟨by dsimp only; omega, by dsimp only; omega, by dsimp only; omega, ?_⟩
      rw [← hraw]
      unfold dateDigits
      dsimp only
      have e1 : ((digitVal c1 * 10 + digitVal c2) * 10 + digitVal c3) * 10 + digitVal c4
          = digitVal c1 * 1000 + digitVal c2 * 100 + digitVal c3 * 10 + digitVal c4 := by ring
      rw [e1]
      have d1 : (digitVal c1 * 1000 + digitVal c2 * 100 + digitVal c3 * 10 + digitVal c4) / 1000
          = digitVal c1 := by omega
      have d2 : (digitVal c1 * 1000 + digitVal c2 * 100 + digitVal c3 * 10 + digitVal c4) / 100 % 10
          = digitVal c2 := by omega
      have d3 : (digitVal c1 * 1000 + digitVal c2 * 100 + digitVal c3 * 10 + digitVal c4) / 10 % 10
          = digitVal c3 := by omega
      have d4 : (digitVal c1 * 1000 + digitVal c2 * 100 + digitVal c3 * 10 + digitVal c4) % 10
          = digitVal c4 := by omega
      have d5 : (digitVal c5 * 10 + digitVal c6) / 10 = digitVal c5 := by omega
      have d6 : (digitVal c5 * 10 + digitVal c6) % 10 = digitVal c6 := by omega
      have d7 : (digitVal c7 * 10 + digitVal c8) / 10 = digitVal c7 := by omega
      have d8 : (digitVal c7 * 10 + digitVal c8) % 10 = digitVal c8 := by omega
      rw [d1, d2, d3, d4, d5, d6, d7, d8]
      rw [digitChar_digitVal c1 h1, digitChar_digitVal c2 h2, digitChar_digitVal c3 h3,
        digitChar_digitVal c4 h4, digitChar_digitVal c5 h5, digitChar_digitVal c6 h6,
        digitChar_digitVal c7 h7, digitChar_digitVal c8 h8]

/-- Every record produced by `parseLineFront` carries as raw date the
canonical rendering of its numeric fields. -/
theorem parseLineFront_shape (cs name : List Char) (d1 : Nat × Nat × Nat)
    (raw1 : List Char) (t1 : Nat × Nat) (r4 : List Char)
    (h : parseLineFront cs = some (name, d1, raw1, t1, r4)) :
    d1.1 ≤ 9999 ∧ d1.2.1 ≤ 99 ∧ d1.2.2 ≤ 99 ∧ raw1 = dateDigits d1.1 d1.2.1 d1.2.2 := by
  unfold parseLineFront at h
  split at h
  case h_1 => exact Option.noConfusion h
  case h_2 =>
    split at h
    case h_2 => exact Option.noConfusion h
    case h_1 =>
      split at h
      case h_1 => exact Option.noConfusion h
      case h_2 =>
        split at h
        case h_1 => exact Option.noConfusion h
        case h_2 dd rawX r2X heqPD =>
          split at h
          case h_1 => exact Option.noConfusion h
          case h_2 =>
            split at h
            case h_1 => exact Option.noConfusion h
            case h_2 =>
              injection h with h
              simp only [Prod.mk.injEq] at h
              have hs := parseDate_shape _ _ _ _ heqPD
              obtain ⟨hb1, hb2, hb3, hraw⟩ := hs
              obtain ⟨e1, e2, e3, e4, e5⟩ := h
              rw [← e2, ← e3]
              exact ⟨hb1, hb2, hb3, hraw⟩

theorem dateDigits_inj (y1 m1 d1 y2 m2 d2 : Nat)
    (hy1 : y1 ≤ 9999) (hm1 : m1 ≤ 99) (hd1 : d1 ≤ 99)
    (hy2 : y2 ≤ 9999) (hm2 : m2 ≤ 99) (hd2 : d2 ≤ 99) :
    dateDigits y1 m1 d1 = dateDigits y2 m2 d2 ↔ (y1 = y2 ∧ m1 = m2 ∧ d1 = d2) := by
  constructor
  · intro h
    unfold dateDigits at h
    simp only [List.cons.injEq] at h
    obtain ⟨e1, e2, e3, e4, _, e5, e6, _, e7, e8, _⟩ := h
    have g1 := digitChar_inj _ _ (by omega) (by omega) e1
    have g2 := digitChar_inj _ _ (by omega) (by omega) e2
    have g3 := digitChar_inj _ _ (by omega) (by omega) e3
    have g4 := digitChar_inj _ _ (by omega) (by omega) e4
    have g5 := digitChar_inj _ _ (by omega) (by omega) e5
    have g6 := digitChar_inj _ _ (by omega) (by omega) e6
    have g7 := digitChar_inj _ _ (by omega) (by omega) e7
    have g8 := digitChar_inj _ _ (by omega) (by omega) e8
    omega
  · intro ⟨e1, e2, e3⟩
    rw [e1, e2, e3]

/-- The date portion rendered by `getCityTodayString` for an in-range
instant, as canonical digits. -/
theorem todayString_data (now off ny nm nd nh nmin : Int)
    (hv : ValidReading ny nm nd nh nmin)
    (heq : now = dateUTC ny (nm - 1) nd nh nmin - off * 60 * 1000) :
    getCityTodayString now off
      = String.mk (dateDigits ny.toNat nm.toNat nd.toNat) ∧
    civilDateInZone now off = (ny, nm, nd) := by
  have hc : now + off * 60 * 1000 = dateUTC ny (nm - 1) nd nh nmin := by omega
  have hf := utc_fields_of_dateUTC ny nm nd nh nmin hv
  have hz : civilDateInZone now off = (ny, nm, nd) := by
    unfold civilDateInZone
    rw [hc, hf.1]
  refine ⟨?_, hz⟩
  unfold getCityTodayString
  rw [hc]
  dsimp only
  rw [hf.1]
  have hy4 := year4_eq ny hv.2.1 hv.2.2.1
  obtain ⟨⟨hvm1, hvm2, hvd1, hvd2⟩, _⟩ := hv
  have hdm := daysInMonth_le ny nm
  have hm2 := pad2_eq nm (by omega) (by omega)
  have hd2 := pad2_eq nd (by omega) (by omega)
  rw [hy4, hm2, hd2]
  show String.mk _ ++ String.mk ['/'] ++ String.mk _ ++ String.mk ['/'] ++ String.mk _
      = String.mk (dateDigits ny.toNat nm.toNat nd.toNat)
  unfold dateDigits
  rfl

/-- Every record matched by `parseLine` carries as `startDateRaw` the
canonical zero-padded rendering of its numeric start-date fields. -/
theorem parseLine_raw (line : String) (r : RawRecord)
    (h : parseLine line = some r) :
    r.sy ≤ 9999 ∧ r.sm ≤ 99 ∧ r.sd ≤ 99 ∧
    r.startDateRaw = String.mk (dateDigits r.sy r.sm r.sd) := by
  unfold parseLine at h
  split at h
  case h_1 => exact Option.noConfusion h
  case h_2 name d1 raw1 t1 r4 heqF =>
    split at h
    case h_1 => exact Option.noConfusion h
    case h_2 d2 raw2 t2 heqT =>
      injection h with h
      subst h
      have hs := parseLineFront_shape _ _ _ _ _ _ heqF
      obtain ⟨hb1, hb2, hb3, hraw⟩ := hs
      refine ⟨hb1, hb2, hb3, ?_⟩
      dsimp only
      rw [hraw]

theorem sectionRecords_raw (t : String) (r : RawRecord)
    (hr : r ∈ sectionRecords t) :
    r.sy ≤ 9999 ∧ r.sm ≤ 99 ∧ r.sd ≤ 99 ∧
    r.startDateRaw = String.mk (dateDigits r.sy r.sm r.sd) := by
  unfold sectionRecords at hr
  rw [List.mem_filterMap] at hr
  obtain ⟨l, _, hl⟩ := hr
  exact parseLine_raw l r hl

/-- The guarded `filterMap` of `parseKalasForToday` is a filter followed
by a map. -/
theorem kalasFilterMap (todayStr : String) (l : List RawRecord) :
    (l.filterMap fun r =>
        if r.startDateRaw = todayStr then some (kalaString r) else none)
      = (l.filter fun r => r.startDateRaw = todayStr).map kalaString := by
  induction l with
  | nil => rfl
  | cons a l ih =>
    by_cases hp : a.startDateRaw = todayStr
    · simp [List.filterMap_cons, List.filter_cons, hp, ih]
    · simp [List.filterMap_cons, List.filter_cons, hp, ih]

/-- The civil date, in a fixed-offset zone, of the instant encoding a
valid civil reading in that zone is the reading's own date. -/
theorem civilDate_of_reading (y m d h min off : Int)
    (hv : ValidReading y m d h min) :
    civilDateInZone (cityLocalToUtcMs y m d h min off) off = (y, m, d) := by
  unfold civilDateInZone cityLocalToUtcMs
  have hc : dateUTC y (m - 1) d h min - off * 60 * 1000 + off * 60 * 1000
      = dateUTC y (m - 1) d h min := by ring
  rw [hc]
  exact (utc_fields_of_dateUTC y m d h min hv).1

/-- C9 counterexample: the source section lists a window written
`2025/12/32`, an out-of-range day that the instant conversion normalizes
to the civil date 2026/01/01; querying on 2026/01/01 the window's start
instant falls on the queried civil date, yet `parseKalasForToday`
returns nothing, because it compares the raw date text, not the civil
date of the start instant. -/
theorem c9_counterexample :
    (sectionRecords "X: 2025/12/32 10:00 to 2025/12/32 11:00").length = 1 ∧
    (∀ r ∈ sectionRecords "X: 2025/12/32 10:00 to 2025/12/32 11:00",
      civilDateInZone (cityLocalToUtcMs r.sy r.sm r.sd r.sh r.smin 0) 0
        = civilDateInZone (dateUTC 2026 0 1 12 0) 0) ∧
    parseKalasForToday "X: 2025/12/32 10:00 to 2025/12/32 11:00" 0
      (dateUTC 2026 0 1 12 0) = [] := by
  decide

/-- C9 (amended): when the query instant encodes a valid civil reading of
the zone and every matched record's fields are in-range civil readings,
`parseKalasForToday` returns exactly the windows whose start instant
falls on the query's civil date, in textual order. The raw-text
comparison the code performs makes the claimed iff fail for records with
out-of-range fields (see the counterexample). -/
theorem c9_amended_today_filter (sectionText : String)
    (off now ny nm nd nh nmin : Int)
    (hv : ValidReading ny nm nd nh nmin)
    (hnow : now = dateUTC ny (nm - 1) nd nh nmin - off * 60 * 1000)
    (hrec : ∀ r ∈ sectionRecords sectionText, ValidRecord r) :
    parseKalasForToday sectionText off now
      = ((sectionRecords sectionText).filter fun r =>
          civilDateInZone (cityLocalToUtcMs r.sy r.sm r.sd r.sh r.smin off) off
            = civilDateInZone now off).map kalaString := by
  have htoday := todayString_data now off ny nm nd nh nmin hv hnow
  unfold parseKalasForToday
  dsimp only
  rw [kalasFilterMap]
  congr 1
  apply List.filter_congr
  intro r hr
  have hval := (hrec r hr).1
  obtain ⟨hb1, hb2, hb3, hraw⟩ := sectionRecords_raw sectionText r hr
  have hstart := civilDate_of_reading r.sy r.sm r.sd r.sh r.smin off hval
  rw [htoday.1, htoday.2, hstart, hraw]
  apply decide_eq_decide.mpr
  rw [String.ext_iff]
  have hy1 := hv.2.1
  have hy2 := hv.2.2.1
  have hm1 := hv.1.1
  have hm2 := hv.1.2.1
  have hd1 := hv.1.2.2.1
  have hd2 := hv.1.2.2.2
  have hdm := daysInMonth_le ny nm
  rw [dateDigits_inj r.sy r.sm r.sd ny.toNat nm.toNat nd.toNat hb1 hb2 hb3
    (by omega) (by omega) (by omega)]
  rw [Prod.mk.injEq, Prod.mk.injEq]
  constructor
  · intro ⟨e1, e2, e3⟩
    refine ⟨by omega, by omega, by omega⟩
  · intro ⟨e1, e2, e3⟩
    refine ⟨by omega, by omega, by omega⟩

theorem c9_amended_today_filter_witness :
    ValidReading 2026 1 1 12 0 ∧
    (∀ r ∈ sectionRecords
        "X: 2026/01/01 10:00 to 2026/01/01 11:00\nY: 2026/01/02 10:00 to 2026/01/02 11:00",
      ValidRecord r) ∧
    parseKalasForToday
        "X: 2026/01/01 10:00 to 2026/01/01 11:00\nY: 2026/01/02 10:00 to 2026/01/02 11:00"
        330 (dateUTC 2026 0 1 12 0 - 330 * 60 * 1000)
      = ((sectionRecords
            "X: 2026/01/01 10:00 to 2026/01/01 11:00\nY: 2026/01/02 10:00 to 2026/01/02 11:00").filter
          fun r =>
            civilDateInZone (cityLocalToUtcMs r.sy r.sm r.sd r.sh r.smin 330) 330
              = civilDateInZone (dateUTC 2026 0 1 12 0 - 330 * 60 * 1000) 330).map
          kalaString :=
  ⟨by decide, by decide,
   c9_amended_today_filter _ 330 _ 2026 1 1 12 0 (by decide) (by norm_num) (by decide)⟩

/-! ## Section extraction (claim C7) -/

theorem matchCI_of_lower (p : List Char) :
    ∀ xs t : List Char, lowerStr xs = lowerStr p → matchCI p (xs ++ t) = some t := by
  induction p with
  | nil =>
    intro xs t h
    have hx : xs = [] := by
      cases xs with
      | nil => rfl
      | cons a l => exact absurd h (by simp [lowerStr])
    rw [hx]
    rfl
  | cons c cs ih =>
    intro xs t h
    cases xs with
    | nil => exact absurd h (by simp [lowerStr])
    | cons a l =>
      simp only [lowerStr, List.map_cons, List.cons.injEq] at h
      show matchCI (c :: cs) (a :: (l ++ t)) = some t
      unfold matchCI
      rw [if_pos h.1]
      exact ih l t h.2

theorem matchCI_suffix (p : List Char) :
    ∀ cs r : List Char, matchCI p cs = some r → r <:+ cs := by
  induction p with
  | nil =>
    intro cs r h
    unfold matchCI at h
    injection h with h
    rw [h]
  | cons c cs ih =>
    intro xs r h
    cases xs with
    | nil => exact Option.noConfusion h
    | cons a l =>
      unfold matchCI at h
      split at h
      · exact (ih l r h).trans (List.suffix_cons a l)
      · exact Option.noConfusion h

theorem spaces1_suffix (cs r : List Char) (h : spaces1 cs = some r) : r <:+ cs := by
  unfold spaces1 at h
  split at h
  · next c rest =>
    split at h
    · injection h with h
      rw [← h]
      exact (List.dropWhile_suffix isSpaceJS).trans (List.suffix_cons c rest)
    · exact Option.noConfusion h
  · exact Option.noConfusion h

theorem eatEquals1_mem (cs r : List Char) (h : eatEquals1 cs = some r) : '=' ∈ cs := by
  unfold eatEquals1 at h
  split at h
  · next rest => exact List.mem_cons_self _ _
  · exact Option.noConfusion h

theorem headerMatchAt_eq_mem (label cs r : List Char)
    (h : headerMatchAt label cs = some r) : '=' ∈ cs := by
  unfold headerMatchAt at h
  cases h1 : matchCI label cs with
  | none => rw [h1] at h; exact Option.noConfusion h
  | some r1 =>
    rw [h1] at h
    simp only [Option.bind_eq_bind, Option.some_bind] at h
    cases h2 : spaces1 r1 with
    | none => rw [h2] at h; exact Option.noConfusion h
    | some r2 =>
      rw [h2] at h
      simp only [Option.some_bind] at h
      cases h3 : matchCI "details:".data r2 with
      | none => rw [h3] at h; exact Option.noConfusion h
      | some r3 =>
        rw [h3] at h
        simp only [Option.some_bind] at h
        have m1 := eatEquals1_mem _ _ h
        have s4 : r3.dropWhile isSpaceJS <:+ r3 := List.dropWhile_suffix isSpaceJS
        have s3 := matchCI_suffix _ _ _ h3
        have s2 := spaces1_suffix _ _ h2
        have s1 := matchCI_suffix _ _ _ h1
        exact s1.subset (s2.subset (s3.subset (s4.subset m1)))

theorem findHeaderCapture_eq_mem (label : List Char) :
    ∀ cs cap : List Char, findHeaderCapture label cs = some cap → '=' ∈ cs := by
  intro cs
  induction cs with
  | nil => intro cap h; exact Option.noConfusion h
  | cons a l ih =>
    intro cap h
    unfold findHeaderCapture at h
    split at h
    · next after heq => exact headerMatchAt_eq_mem _ _ _ heq
    · exact List.mem_cons_of_mem a (ih cap h)

theorem dropWhileEq_replicate (body : List Char) (hb : body.head? ≠ some '=') :
    ∀ k : Nat, (List.replicate k '=' ++ body).dropWhile (fun c => c = '=') = body := by
  intro k
  induction k with
  | zero =>
    simp only [List.replicate, List.nil_append]
    cases body with
    | nil => rfl
    | cons b bs =>
      rw [List.dropWhile_cons]
      rw [if_neg]
      simp only [List.head?_cons, ne_eq, Option.some.injEq] at hb
      simp [hb]
  | succ k ih =>
    rw [List.replicate_succ, List.cons_append, List.dropWhile_cons, if_pos (by decide)]
    exact ih

theorem captureUntilBoundary_all :
    ∀ body : List Char, (∀ n : Nat, n ≤ body.length → boundaryAt (body.drop n) = false) →
    captureUntilBoundary body = body := by
  intro body
  induction body with
  | nil => intro _; rfl
  | cons c rest ih =>
    intro h
    have h0 : boundaryAt (c :: rest) = false := h 0 (by omega)
    unfold captureUntilBoundary
    rw [h0]
    simp only [Bool.false_eq_true, if_false, List.cons.injEq, true_and]
    refine ih (fun n hn => ?_)
    have := h (n + 1) (by simpa using Nat.succ_le_succ hn)
    simpa using this

/-- The header part of the extraction pattern matched against a text that
starts with a case-variant of the label, one space, `details:`, and at
least one equals sign. -/
theorem headerMatchAt_shape (label hdr body : List Char) (k : Nat)
    (hlab : lowerStr hdr = lowerStr label) (hb : body.head? ≠ some '=') :
    headerMatchAt label
        (hdr ++ ' ' :: ("details:".data ++ (List.replicate (k + 1) '=' ++ body)))
      = some body := by
  unfold headerMatchAt
  rw [matchCI_of_lower label hdr _ hlab]
  simp only [Option.bind_eq_bind, Option.some_bind]
  have hds : "details:".data = 'd' :: "etails:".data := by decide
  have hsp : spaces1 (' ' :: ("details:".data ++ (List.replicate (k + 1) '=' ++ body)))
      = some ("details:".data ++ (List.replicate (k + 1) '=' ++ body)) := by
    simp only [spaces1]
    rw [if_pos (by decide)]
    rw [List.cons_append, List.dropWhile_cons, if_neg (by decide)]
  rw [hsp]
  simp only [Option.some_bind]
  rw [matchCI_of_lower "details:".data "details:".data _ rfl]
  simp only [Option.some_bind]
  rw [List.replicate_succ, List.cons_append, List.dropWhile_cons, if_neg (by decide)]
  simp only [eatEquals1]
  rw [dropWhileEq_replicate body hb k]

theorem findHeaderCapture_cons (label : List Char) (c : Char) (rest after : List Char)
    (h : headerMatchAt label (c :: rest) = some after) :
    findHeaderCapture label (c :: rest) = some (captureUntilBoundary after) := by
  unfold findHeaderCapture
  rw [h]

/-- C7 counterexample: the extraction regex of `src/script.js` requires
at least one equals sign after `details:`; a section whose header lacks
the divider is NOT found, while the same text with a single `=` added
is.  This refutes the claimed optionality of the divider line. -/
theorem c7_counterexample :
    extractSection "Thithi details:\nX: 2025/12/04 15:14 to 2025/12/05 11:26" "Thithi"
      = "" ∧
    extractSection "Thithi details:=\nX: 2025/12/04 15:14 to 2025/12/05 11:26" "Thithi"
      = "X: 2025/12/04 15:14 to 2025/12/05 11:26" := by
  decide

/-- C7 (amended): section extraction finds the first position where the
label is followed by whitespace, `details:`, optional spaces and a
MANDATORY divider of at least one equals sign (texts without any equals
sign never yield a section), matching the label case-insensitively, and
captures everything up to the next `\n word details:` boundary or the
end of the text, trimmed. -/
theorem c7_amended_extraction :
    (∀ text header : String, '=' ∉ text.data → extractSection text header = "") ∧
    (∀ (label hdr body : List Char) (k : Nat),
      lowerStr hdr = lowerStr label →
      body.head? ≠ some '=' →
      (∀ n : Nat, n ≤ body.length → boundaryAt (body.drop n) = false) →
      extractSection
          (String.mk (hdr ++ ' ' :: ("details:".data ++ (List.replicate (k + 1) '=' ++ body))))
          (String.mk label)
        = String.mk (trimJS body)) := by
  constructor
  · intro text header hne
    unfold extractSection
    cases hfc : findHeaderCapture header.data text.data with
    | none => rfl
    | some cap => exact absurd (findHeaderCapture_eq_mem _ _ _ hfc) hne
  · intro label hdr body k hlab hb hnb
    have hcap : captureUntilBoundary body = body := captureUntilBoundary_all body hnb
    unfold extractSection
    cases hdr with
    | nil =>
      have hm := headerMatchAt_shape label [] body k (by simpa using hlab) hb
      rw [List.nil_append] at hm
      show (match findHeaderCapture (String.mk label).data
          (String.mk (' ' :: ("details:".data ++ (List.replicate (k + 1) '=' ++ body)))).data with
        | some cap => String.mk (trimJS cap)
        | none => "") = String.mk (trimJS body)
      rw [findHeaderCapture_cons _ _ _ _ hm, hcap]
    | cons a l =>
      have hm := headerMatchAt_shape label (a :: l) body k hlab hb
      rw [List.cons_append] at hm
      show (match findHeaderCapture (String.mk label).data
          (String.mk (a :: (l ++ ' ' :: ("details:".data ++ (List.replicate (k + 1) '=' ++ body))))).data with
        | some cap => String.mk (trimJS cap)
        | none => "") = String.mk (trimJS body)
      rw [findHeaderCapture_cons _ _ _ _ hm, hcap]

theorem c7_amended_extraction_witness :
    ('=' ∉ "Thithi details:\nX: 1".data ∧
      extractSection "Thithi details:\nX: 1" "Thithi" = "") ∧
    (lowerStr "RAHUKALA".data = lowerStr "Rahukala".data ∧
      (" 10:00 to 11:00".data.head? ≠ some '=') ∧
      (∀ n : Nat, n ≤ " 10:00 to 11:00".data.length →
        boundaryAt (" 10:00 to 11:00".data.drop n) = false) ∧
      extractSection
          (String.mk ("RAHUKALA".data ++ ' ' ::
            ("details:".data ++ (List.replicate 3 '=' ++ " 10:00 to 11:00".data))))
          (String.mk "Rahukala".data)
        = String.mk (trimJS " 10:00 to 11:00".data)) :=
  ⟨⟨by decide, c7_amended_extraction.1 _ _ (by decide)⟩,
   ⟨by decide, by decide, by decide,
    c7_amended_extraction.2 "Rahukala".data "RAHUKALA".data " 10:00 to 11:00".data 2
      (by decide) (by decide) (by decide)⟩⟩
